import Mathlib

/-!
# DBSCAN density-based clustering — verification development

A shallow embedding of the DBSCAN core (`Dbscan::new`, `Dbscan::predict`,
`region_query` in `src/dbscan.rs`) together with proofs of its specified
properties.

Modelling choices:
* Floating-point coordinates are modelled by `ℚ` (all comparisons in the
  examples are far from the decision boundary, so exact arithmetic agrees
  with `f64` arithmetic there).
* The k-d tree is modelled extensionally: `region_query` on the training
  matrix returns the indices of all rows within squared distance `eps ^ 2`
  of the query row, the query row included.  The fit engine is additionally
  parametrised over an arbitrary neighbourhood function `q : Nat → List Nat`
  so that order-sensitivity of the index output can be analysed.
* Rust's `usize` subtraction in `predict` is modelled both by wrapping
  (release) and checked (debug) semantics.
* The `while let Some(idx) = neighbours.pop()` loop is embedded with an
  explicit fuel argument; fuel sufficiency is proved separately.
-/

namespace DbscanModel

/-- `squared_euclidean` from the kdtree crate: sum of squared coordinate
differences (coordinate lists of equal length in all uses). -/
def sqDist : List ℚ → List ℚ → ℚ
  | a :: as, b :: bs => (a - b) ^ 2 + sqDist as bs
  | _, _ => 0

/-- `region_query(row, eps, kdt, ..)` against the index built from `pts`:
all indices `j` with squared distance from `row` to row `j` at most
`eps.powi(2)`. -/
def regionQueryRow (pts : List (List ℚ)) (eps : ℚ) (row : List ℚ) : List Nat :=
  (List.range pts.length).filter (fun j => sqDist row (pts.getD j []) ≤ eps ^ 2)

/-- Region query for training row `i` against the training matrix itself. -/
def regionQueryQ (pts : List (List ℚ)) (eps : ℚ) (i : Nat) : List Nat :=
  regionQueryRow pts eps (pts.getD i [])

/-- Rust `Vec::dedup`: remove consecutive duplicates. -/
def dedupConsec : List Nat → List Nat
  | [] => []
  | [a] => [a]
  | a :: b :: t => if a = b then dedupConsec (b :: t) else a :: dedupConsec (b :: t)

/-- `sort_unstable_by(partial_cmp)` followed by `dedup`, as the fit engine
normalises every frontier. -/
def sortDedup (l : List Nat) : List Nat :=
  dedupConsec (List.insertionSort (· ≤ ·) l)

/-- The mutable state of one `Dbscan::new` run: the `visited` array and the
`clusters` label array (both indexed by training row). -/
structure DbState where
  visited : List Bool
  clusters : List (Option Nat)
deriving DecidableEq, Repr

/-- The inner `while let Some(neighbour_idx) = neighbours.pop()` loop of
`Dbscan::new`, growing cluster `c`.  `frontier` is the sorted, deduplicated
`neighbours` vector; `pop` takes its last (largest) element.  `fuel` bounds
the number of iterations; `none` means fuel ran out (shown impossible for
the fuel chosen by `dbscanFit`). -/
def expand (q : Nat → List Nat) (minPts : Nat) (borders : Bool) (c : Nat) :
    Nat → List Nat → DbState → Option DbState
  | 0, _, _ => none
  | fuel + 1, frontier, st =>
    match frontier.getLast? with
    | none => some st
    | some idx =>
      let rest := frontier.dropLast
      let st1 : DbState := if borders then ⟨st.visited, st.clusters.set idx (some c)⟩ else st
      if st1.visited.getD idx false then
        expand q minPts borders c fuel rest st1
      else
        let st2 : DbState := ⟨st1.visited.set idx true, st1.clusters⟩
        if minPts ≤ (q idx).length then
          let st3 : DbState :=
            if borders then st2 else ⟨st2.visited, st2.clusters.set idx (some c)⟩
          expand q minPts borders c fuel (sortDedup (rest ++ q idx)) st3
        else
          expand q minPts borders c fuel rest st2

/-- The outer `for (row_idx, row) in data.outer_iter().enumerate()` loop of
`Dbscan::new`: `rows` is the list of remaining row indices and `c` the next
cluster id. -/
def fitRows (q : Nat → List Nat) (minPts : Nat) (borders : Bool) (fuel : Nat) :
    List Nat → Nat → DbState → Option DbState
  | [], _, st => some st
  | r :: rows, c, st =>
    if st.visited.getD r false then
      fitRows q minPts borders fuel rows c st
    else
      let st1 : DbState := ⟨st.visited.set r true, st.clusters⟩
      let nb := sortDedup (q r)
      if minPts ≤ nb.length then
        match expand q minPts borders c fuel nb ⟨st1.visited, st1.clusters.set r (some c)⟩ with
        | none => none
        | some st2 => fitRows q minPts borders fuel rows (c + 1) st2
      else
        fitRows q minPts borders fuel rows c st1

/-- Fuel budget that suffices for any single cluster expansion over `n`
points (proved in `expand_fuel_sufficient`). -/
def fitFuel (n : Nat) : Nat := (n + 1) * (n + 1)

/-- `Dbscan::new` over an abstract neighbourhood function, returning `none`
if the fuel budget were ever insufficient. -/
def dbscanFitW (q : Nat → List Nat) (n minPts : Nat) (borders : Bool) :
    Option (List (Option Nat)) :=
  (fitRows q minPts borders (fitFuel n) (List.range n) 0
      ⟨List.replicate n false, List.replicate n none⟩).map DbState.clusters

/-- The `clusters` vector computed by `Dbscan::new` over an abstract
neighbourhood function. -/
def dbscanFit (q : Nat → List Nat) (n minPts : Nat) (borders : Bool) :
    List (Option Nat) :=
  (dbscanFitW q n minPts borders).getD (List.replicate n none)

/-- `Dbscan::new(&data, eps, min_points, borders).clusters` for a rational
point matrix. -/
def dbscanFitQ (pts : List (List ℚ)) (eps : ℚ) (minPts : Nat) (borders : Bool) :
    List (Option Nat) :=
  dbscanFit (regionQueryQ pts eps) pts.length minPts borders

/-- `ClusterPrediction` from `src/dbscan.rs`. -/
inductive ClusterPrediction where
  | Core : List (Option Nat) → ClusterPrediction
  | Border : List (Option Nat) → ClusterPrediction
  | Noise : ClusterPrediction
deriving DecidableEq, Repr

/-- Whether a prediction is the `Core` variant. -/
def ClusterPrediction.isCore : ClusterPrediction → Bool
  | .Core _ => true
  | _ => false

/-- Itertools `unique()`: keep the first occurrence of each value, in
first-occurrence order.  `seen` accumulates the values already emitted. -/
def uniqueFirstAux (seen : List (Option Nat)) : List (Option Nat) → List (Option Nat)
  | [] => []
  | a :: t => if a ∈ seen then uniqueFirstAux seen t else a :: uniqueFirstAux (a :: seen) t

/-- Itertools `unique()` over neighbour labels. -/
def uniqueFirst (l : List (Option Nat)) : List (Option Nat) :=
  uniqueFirstAux [] l

/-- Rust release-mode `usize` subtraction: wraps modulo `2 ^ 64`
(arguments below `2 ^ 64`). -/
def usizeSubWrap (a b : Nat) : Nat := (2 ^ 64 + a - b) % 2 ^ 64

/-- Rust debug-mode (checked) `usize` subtraction: `none` models the
overflow panic. -/
def checkedSub (a b : Nat) : Option Nat := if b ≤ a then some (a - b) else none

/-- The per-row classification step of `Dbscan::predict`, given the raw
neighbour list of the query row: `Core` when
`neighbours.len() >= min_points - 1` (usize arithmetic), else `Border`
when some neighbour label is non-`None`, else `Noise`. -/
def predictOne (clusters : List (Option Nat)) (minPts : Nat) (nbrs : List Nat) :
    ClusterPrediction :=
  let ncl := uniqueFirst (nbrs.map (fun i => clusters.getD i none))
  if usizeSubWrap minPts 1 ≤ nbrs.length then ClusterPrediction.Core ncl
  else if ncl.any (fun c => c.isSome) then ClusterPrediction.Border ncl
  else ClusterPrediction.Noise

/-- `Dbscan::predict(&self, data, new_data)`: one classification per row of
`newPts`, each from a fresh region query into the training matrix. -/
def dbscanPredict (eps : ℚ) (minPts : Nat) (clusters : List (Option Nat))
    (pts newPts : List (List ℚ)) : List ClusterPrediction :=
  newPts.map (fun row => predictOne clusters minPts (regionQueryRow pts eps row))

/-- Modelled from the spec (§4.4 Classify): the predictor's classification
rule with the threshold read as exact integer arithmetic,
`|N| ≥ min_points - 1` over `ℤ`. -/
def predictSpec (clusters : List (Option Nat)) (minPts : Nat) (nbrs : List Nat) :
    ClusterPrediction :=
  let ncl := uniqueFirst (nbrs.map (fun i => clusters.getD i none))
  if (minPts : ℤ) - 1 ≤ (nbrs.length : ℤ) then ClusterPrediction.Core ncl
  else if ncl.any (fun c => c.isSome) then ClusterPrediction.Border ncl
  else ClusterPrediction.Noise

/-- The unconditional border-mode label write performed on every popped
frontier element (`if borders { clusters[idx] = Some(c) }`). -/
def borderWrite (b : Bool) (c idx : Nat) (st : DbState) : DbState :=
  if b then ⟨st.visited, st.clusters.set idx (some c)⟩ else st

/-- `visited[idx] = true`. -/
def markVisited (idx : Nat) (st : DbState) : DbState :=
  ⟨st.visited.set idx true, st.clusters⟩

/-- The non-border-mode core label write (`if !borders { clusters[idx] = Some(c) }`). -/
def coreWrite (b : Bool) (c idx : Nat) (st : DbState) : DbState :=
  if b then st else ⟨st.visited, st.clusters.set idx (some c)⟩

/-- The seed label write `clusters[row_idx] = Some(c)`. -/
def seedWrite (c r : Nat) (st : DbState) : DbState :=
  ⟨st.visited, st.clusters.set r (some c)⟩

/-- Number of not-yet-visited points; part of the termination measure. -/
def unvisCount (st : DbState) : Nat := st.visited.count false

/-- Every label present in the first state is present with the same cluster
id in the second: the refinement relation between the `borders = false` run
and the `borders = true` run. -/
def LabelsLe (stF stT : DbState) : Prop :=
  ∀ i co, stF.clusters.getD i none = some co → stT.clusters.getD i none = some co

/-- Every in-range point whose neighbourhood contains `i` is already
visited, so `i` can never re-enter a frontier. -/
def Shielded (q : Nat → List Nat) (n : Nat) (st : DbState) (i : Nat) : Prop :=
  ∀ z, z < n → i ∈ q z → st.visited.getD z false = true

/-- The 8-point matrix of spec Example 1 / `test_clusters`. -/
def ex1 : List (List ℚ) :=
  [[1, 2], [11/10, 11/5], [9/10, 19/10], [1, 21/10],
   [-2, 3], [-11/5, 31/10], [-1, -2], [-2, -1]]

/-- Explicit table of the Example-1 region queries at `eps = 1/2`. -/
def exT : Nat → List Nat
  | 0 | 1 | 2 | 3 => [0, 1, 2, 3]
  | 4 | 5 => [4, 5]
  | 6 => [6]
  | 7 => [7]
  | _ => List.range 8

lemma ex1_query_ge (i : Nat) (h : 8 ≤ i) : regionQueryQ ex1 (1/2) i = List.range 8 := by
  have h0 : ex1.getD i [] = [] := List.getD_eq_default _ _ (by simp [ex1]; omega)
  simp only [regionQueryQ, regionQueryRow, h0]
  norm_num [sqDist, show ex1.length = 8 from rfl]

lemma ex1_query : regionQueryQ ex1 (1/2) = exT := by
  funext i
  match i with
  | 0 => norm_num [regionQueryQ, regionQueryRow, sqDist, ex1, exT, List.filter_cons,
          decide_eq_true_eq, show List.range 8 = [0,1,2,3,4,5,6,7] by decide]
  | 1 => norm_num [regionQueryQ, regionQueryRow, sqDist, ex1, exT, List.filter_cons,
          decide_eq_true_eq, show List.range 8 = [0,1,2,3,4,5,6,7] by decide]
  | 2 => norm_num [regionQueryQ, regionQueryRow, sqDist, ex1, exT, List.filter_cons,
          decide_eq_true_eq, show List.range 8 = [0,1,2,3,4,5,6,7] by decide]
  | 3 => norm_num [regionQueryQ, regionQueryRow, sqDist, ex1, exT, List.filter_cons,
          decide_eq_true_eq, show List.range 8 = [0,1,2,3,4,5,6,7] by decide]
  | 4 => norm_num [regionQueryQ, regionQueryRow, sqDist, ex1, exT, List.filter_cons,
          decide_eq_true_eq, show List.range 8 = [0,1,2,3,4,5,6,7] by decide]
  | 5 => norm_num [regionQueryQ, regionQueryRow, sqDist, ex1, exT, List.filter_cons,
          decide_eq_true_eq, show List.range 8 = [0,1,2,3,4,5,6,7] by decide]
  | 6 => norm_num [regionQueryQ, regionQueryRow, sqDist, ex1, exT, List.filter_cons,
          decide_eq_true_eq, show List.range 8 = [0,1,2,3,4,5,6,7] by decide]
  | 7 => norm_num [regionQueryQ, regionQueryRow, sqDist, ex1, exT, List.filter_cons,
          decide_eq_true_eq, show List.range 8 = [0,1,2,3,4,5,6,7] by decide]
  | (n+8) => exact ex1_query_ge _ (by omega)

/-- C2: `fit` on the 8-point Example-1 matrix with `eps = 0.5`,
`min_points = 2`, `include_borders = false` returns
`[Some 0, Some 0, Some 0, Some 0, Some 1, Some 1, None, None]`. -/
theorem fit_example1 : dbscanFitQ ex1 (1/2) 2 false =
    [some 0, some 0, some 0, some 0, some 1, some 1, none, none] := by
  unfold dbscanFitQ
  rw [show ex1.length = 8 from rfl, ex1_query]
  decide

lemma predictOne_eq_spec (clusters : List (Option Nat)) (minPts : Nat)
    (nbrs : List Nat) (h1 : 1 ≤ minPts) (h2 : minPts < 2 ^ 64) :
    predictOne clusters minPts nbrs = predictSpec clusters minPts nbrs := by
  have hw : usizeSubWrap minPts 1 = minPts - 1 := by unfold usizeSubWrap; omega
  simp only [predictOne, predictSpec]
  refine if_congr ?_ rfl rfl
  rw [hw]
  omega

/-- C4 (amended): for a model with `min_points ≥ 1` (so that the `usize`
subtraction `min_points - 1` does not underflow), `predict` classifies each
query row exactly as the spec describes: `Core(distinct_labels)` when
`|N| ≥ min_points - 1`, else `Border(distinct_labels)` when some distinct
label is non-`None`, else `Noise`. -/
theorem predict_matches_spec (eps : ℚ) (minPts : Nat) (clusters : List (Option Nat))
    (pts newPts : List (List ℚ)) (h1 : 1 ≤ minPts) (h2 : minPts < 2 ^ 64) :
    dbscanPredict eps minPts clusters pts newPts =
      newPts.map (fun row => predictSpec clusters minPts (regionQueryRow pts eps row)) := by
  unfold dbscanPredict
  exact List.map_congr_left (fun row _ => predictOne_eq_spec _ _ _ h1 h2)

/-- Witness for `predict_matches_spec` at a concrete model and query. -/
theorem predict_matches_spec_witness :
    dbscanPredict 1 1 [some 0] [[0]] [[0]] =
      [[0]].map (fun row => predictSpec [some 0] 1 (regionQueryRow [[0]] 1 row)) :=
  predict_matches_spec 1 1 [some 0] [[0]] [[0]] (by decide) (by norm_num)

/-- C4 (counterexample to the unrestricted claim): for `min_points = 0` the
spec's integer threshold `|N| ≥ min_points - 1 = -1` always classifies the
row as `Core`, but `predict` returns `Noise` on a query with no
neighbours. -/
theorem predict_spec_counterexample :
    dbscanPredict 1 0 [] [] [[0]] = [ClusterPrediction.Noise] ∧
    predictSpec [] 0 (regionQueryRow [] 1 [0]) = ClusterPrediction.Core [] := by
  constructor
  · decide
  · decide

/-- C9: `predict`'s threshold `min_points - 1` underflows at
`min_points = 0`: the checked (debug) subtraction fails — the Rust panic —
and the wrapping (release) subtraction yields `2 ^ 64 - 1`, so the `Core`
branch would need at least `usize::MAX` neighbours; hence no realisable
neighbour list is classified `Core`. -/
theorem predict_minpts_zero_underflow :
    checkedSub 0 1 = none ∧ usizeSubWrap 0 1 = 2 ^ 64 - 1 ∧
    ∀ (clusters : List (Option Nat)) (nbrs : List Nat),
      nbrs.length < 2 ^ 64 - 1 → (predictOne clusters 0 nbrs).isCore = false := by
  refine ⟨by decide, by norm_num [usizeSubWrap], ?_⟩
  intro clusters nbrs h
  have hw : usizeSubWrap 0 1 = 2 ^ 64 - 1 := by norm_num [usizeSubWrap]
  unfold predictOne
  rw [hw, if_neg (by omega)]
  by_cases ha : (uniqueFirst (nbrs.map (fun i => clusters.getD i none))).any
      (fun c => c.isSome) = true
  · rw [if_pos ha]; rfl
  · rw [if_neg ha]; rfl

/-- Witness for `predict_minpts_zero_underflow` at the empty neighbour
list. -/
theorem predict_minpts_zero_underflow_witness :
    checkedSub 0 1 = none ∧ usizeSubWrap 0 1 = 2 ^ 64 - 1 ∧
    (predictOne [] 0 []).isCore = false :=
  ⟨predict_minpts_zero_underflow.1, predict_minpts_zero_underflow.2.1,
    predict_minpts_zero_underflow.2.2 [] [] (by norm_num)⟩

lemma regionQueryRow_neg (pts : List (List ℚ)) (eps : ℚ) (row : List ℚ) :
    regionQueryRow pts (-eps) row = regionQueryRow pts eps row := by
  simp [regionQueryRow, neg_sq]

/-- C8 (amended): `fit` does not validate `eps`: a negative `eps` is not
rejected; because the radius is squared (`eps.powi(2)`) before it reaches
the index, `fit` with `eps < 0` behaves exactly as `fit` with `-eps`. -/
theorem fit_negative_eps (pts : List (List ℚ)) (eps : ℚ) (minPts : Nat)
    (borders : Bool) (h : eps < 0) :
    dbscanFitQ pts eps minPts borders = dbscanFitQ pts (-eps) minPts borders := by
  unfold dbscanFitQ
  have hq : regionQueryQ pts eps = regionQueryQ pts (-eps) := by
    funext i
    unfold regionQueryQ
    rw [regionQueryRow_neg]
  rw [hq]

/-- Witness for `fit_negative_eps` on a one-point matrix. -/
theorem fit_negative_eps_witness :
    dbscanFitQ [[0]] (-1) 1 false = dbscanFitQ [[0]] (-(-1)) 1 false :=
  fit_negative_eps [[0]] (-1) 1 false (by norm_num)

lemma one_point_query (i : Nat) : regionQueryQ [[(0:ℚ)]] (-1) i = [0] := by
  match i with
  | 0 => norm_num [regionQueryQ, regionQueryRow, sqDist,
          show List.range 1 = [0] by decide, List.filter_cons, decide_eq_true_eq]
  | (n+1) =>
    have h0 : List.getD [[(0:ℚ)]] (n+1) [] = [] := List.getD_eq_default _ _ (by simp)
    simp only [regionQueryQ, regionQueryRow, h0]
    norm_num [sqDist, List.filter_cons, decide_eq_true_eq, show List.range 1 = [0] by decide]

/-- C8 (counterexample to the claim as stated): `fit` with `eps = -1` on the
one-point matrix `[[0]]` is not rejected — it proceeds and produces the
clustering `[Some 0]`, exactly as for the valid radius `1`. -/
theorem fit_negative_eps_counterexample :
    dbscanFitQ [[0]] (-1) 1 false = [some 0] := by
  unfold dbscanFitQ
  rw [show List.length [[(0:ℚ)]] = 1 from rfl, funext one_point_query]
  decide

end DbscanModel

namespace DbscanModel

lemma getD_set_self {α : Type} (l : List α) (i : Nat) (a d : α) (h : i < l.length) :
    (l.set i a).getD i d = a := by
  simp [List.getD_eq_getElem?_getD, List.getElem?_set_self h]

lemma getD_set_ne {α : Type} (l : List α) {i j : Nat} (a d : α) (h : i ≠ j) :
    (l.set i a).getD j d = l.getD j d := by
  simp [List.getD_eq_getElem?_getD, List.getElem?_set_ne h]

lemma mem_dedupConsec (x : Nat) : ∀ (l : List Nat), x ∈ dedupConsec l ↔ x ∈ l := by
  intro l
  induction l with
  | nil => simp [dedupConsec]
  | cons a t ih =>
    cases t with
    | nil => simp [dedupConsec]
    | cons b t2 =>
      rw [dedupConsec]
      by_cases hab : a = b
      · rw [if_pos hab]
        subst hab
        rw [ih]
        simp
      · rw [if_neg hab]
        simp only [List.mem_cons]
        rw [ih]
        simp

lemma dedupConsec_sorted : ∀ (l : List Nat), l.Sorted (· ≤ ·) →
    (dedupConsec l).Sorted (· < ·) := by
  intro l
  induction l with
  | nil => intro _; simp [dedupConsec]
  | cons a t ih =>
    intro h
    cases t with
    | nil => simp [dedupConsec]
    | cons b t2 =>
      rw [List.sorted_cons] at h
      rw [dedupConsec]
      by_cases hab : a = b
      · rw [if_pos hab]
        exact ih h.2
      · rw [if_neg hab]
        rw [List.sorted_cons]
        refine ⟨?_, ih h.2⟩
        intro x hx
        rw [mem_dedupConsec] at hx
        have hab' : a < b := lt_of_le_of_ne (h.1 b (by simp)) hab
        rcases List.mem_cons.mp hx with rfl | hx2
        · exact hab'
        · exact lt_of_lt_of_le hab' ((List.sorted_cons.mp h.2).1 x hx2)

lemma sortDedup_sorted (l : List Nat) : (sortDedup l).Sorted (· < ·) :=
  dedupConsec_sorted _ (List.sorted_insertionSort _ l)

lemma sortDedup_nodup (l : List Nat) : (sortDedup l).Nodup :=
  (sortDedup_sorted l).nodup

lemma mem_sortDedup (x : Nat) (l : List Nat) : x ∈ sortDedup l ↔ x ∈ l := by
  rw [sortDedup, mem_dedupConsec]
  exact (List.perm_insertionSort _ l).mem_iff

lemma sortDedup_perm_eq {l₁ l₂ : List Nat} (h : l₁.Perm l₂) :
    sortDedup l₁ = sortDedup l₂ := by
  unfold sortDedup
  congr 1
  refine List.eq_of_perm_of_sorted ?_ (List.sorted_insertionSort _ _)
    (List.sorted_insertionSort _ _)
  exact (List.perm_insertionSort _ l₁).trans (h.trans (List.perm_insertionSort _ l₂).symm)

lemma dedupConsec_of_nodup : ∀ (l : List Nat), l.Nodup → dedupConsec l = l := by
  intro l
  induction l with
  | nil => intro _; rfl
  | cons a t ih =>
    intro h
    cases t with
    | nil => rfl
    | cons b t2 =>
      rw [dedupConsec]
      have hab : a ≠ b := by
        intro hh
        subst hh
        simp at h
      rw [if_neg hab]
      rw [ih (List.nodup_cons.mp h).2]

lemma sortDedup_length_of_nodup (l : List Nat) (h : l.Nodup) :
    (sortDedup l).length = l.length := by
  unfold sortDedup
  rw [dedupConsec_of_nodup _ (((List.perm_insertionSort (· ≤ ·) l)).nodup_iff.mpr h)]
  exact (List.perm_insertionSort _ l).length_eq

lemma sortDedup_length_le (l : List Nat) (n : Nat) (h : ∀ x ∈ l, x < n) :
    (sortDedup l).length ≤ n := by
  have hsub : sortDedup l ⊆ List.range n := by
    intro x hx
    exact List.mem_range.mpr (h x ((mem_sortDedup x l).mp hx))
  have := ((sortDedup_nodup l).subperm hsub).length_le
  simpa using this

lemma borderWrite_visited (b : Bool) (c idx : Nat) (st : DbState) :
    (borderWrite b c idx st).visited = st.visited := by
  cases b <;> rfl

lemma coreWrite_visited (b : Bool) (c idx : Nat) (st : DbState) :
    (coreWrite b c idx st).visited = st.visited := by
  cases b <;> rfl

lemma markVisited_clusters (idx : Nat) (st : DbState) :
    (markVisited idx st).clusters = st.clusters := rfl

lemma expand_zero (q : Nat → List Nat) (m : Nat) (b : Bool) (c : Nat)
    (fr : List Nat) (st : DbState) : expand q m b c 0 fr st = none := rfl

lemma expand_empty (q : Nat → List Nat) (m : Nat) (b : Bool) (c fuel : Nat)
    (fr : List Nat) (st : DbState) (h : fr.getLast? = none) :
    expand q m b c (fuel + 1) fr st = some st := by
  simp only [expand]
  rw [h]

lemma expand_pop_visited (q : Nat → List Nat) (m : Nat) (b : Bool) (c fuel : Nat)
    (fr : List Nat) (st : DbState) (idx : Nat) (h : fr.getLast? = some idx)
    (hv : st.visited.getD idx false = true) :
    expand q m b c (fuel + 1) fr st =
      expand q m b c fuel fr.dropLast (borderWrite b c idx st) := by
  rw [List.getD_eq_getElem?_getD] at hv
  cases b <;> (simp only [expand]; rw [h]; simp [borderWrite, hv])

lemma expand_pop_core (q : Nat → List Nat) (m : Nat) (b : Bool) (c fuel : Nat)
    (fr : List Nat) (st : DbState) (idx : Nat) (h : fr.getLast? = some idx)
    (hv : st.visited.getD idx false = false) (hc : m ≤ (q idx).length) :
    expand q m b c (fuel + 1) fr st =
      expand q m b c fuel (sortDedup (fr.dropLast ++ q idx))
        (coreWrite b c idx (markVisited idx (borderWrite b c idx st))) := by
  rw [List.getD_eq_getElem?_getD] at hv
  cases b <;>
    (simp only [expand]; rw [h];
     simp [borderWrite, coreWrite, markVisited, hv, hc])

lemma expand_pop_noncore (q : Nat → List Nat) (m : Nat) (b : Bool) (c fuel : Nat)
    (fr : List Nat) (st : DbState) (idx : Nat) (h : fr.getLast? = some idx)
    (hv : st.visited.getD idx false = false) (hc : ¬ m ≤ (q idx).length) :
    expand q m b c (fuel + 1) fr st =
      expand q m b c fuel fr.dropLast (markVisited idx (borderWrite b c idx st)) := by
  rw [List.getD_eq_getElem?_getD] at hv
  cases b <;>
    (simp only [expand]; rw [h];
     simp [borderWrite, markVisited, hv, hc])

lemma fitRows_nil (q : Nat → List Nat) (m : Nat) (b : Bool) (fuel c : Nat)
    (st : DbState) : fitRows q m b fuel [] c st = some st := rfl

lemma fitRows_cons_visited (q : Nat → List Nat) (m : Nat) (b : Bool) (fuel : Nat)
    (r : Nat) (rows : List Nat) (c : Nat) (st : DbState)
    (hv : st.visited.getD r false = true) :
    fitRows q m b fuel (r :: rows) c st = fitRows q m b fuel rows c st := by
  simp only [fitRows]
  rw [hv]
  simp

lemma fitRows_cons_core (q : Nat → List Nat) (m : Nat) (b : Bool) (fuel : Nat)
    (r : Nat) (rows : List Nat) (c : Nat) (st : DbState)
    (hv : st.visited.getD r false = false) (hc : m ≤ (sortDedup (q r)).length) :
    fitRows q m b fuel (r :: rows) c st =
      match expand q m b c fuel (sortDedup (q r)) (seedWrite c r (markVisited r st)) with
      | none => none
      | some st2 => fitRows q m b fuel rows (c + 1) st2 := by
  simp only [fitRows]
  rw [hv]
  simp [seedWrite, markVisited, hc]

lemma fitRows_cons_noncore (q : Nat → List Nat) (m : Nat) (b : Bool) (fuel : Nat)
    (r : Nat) (rows : List Nat) (c : Nat) (st : DbState)
    (hv : st.visited.getD r false = false) (hc : ¬ m ≤ (sortDedup (q r)).length) :
    fitRows q m b fuel (r :: rows) c st = fitRows q m b fuel rows c (markVisited r st) := by
  simp only [fitRows]
  rw [hv]
  simp [markVisited, hc]

lemma getLast?_decomp {fr : List Nat} {idx : Nat} (h : fr.getLast? = some idx) :
    fr = fr.dropLast ++ [idx] :=
  (List.dropLast_append_getLast? idx h).symm

lemma mem_of_getLast? {fr : List Nat} {idx : Nat} (h : fr.getLast? = some idx) :
    idx ∈ fr := by
  rw [getLast?_decomp h]
  simp

lemma mem_fr_cases {fr : List Nat} {idx x : Nat} (h : fr.getLast? = some idx)
    (hx : x ∈ fr) : x ∈ fr.dropLast ∨ x = idx := by
  rw [getLast?_decomp h] at hx
  simpa using List.mem_append.mp hx

lemma getD_set_true_mono (l : List Bool) (idx i : Nat) (h : l.getD i false = true) :
    (l.set idx true).getD i false = true := by
  by_cases hij : idx = i
  · subst hij
    by_cases hlen : idx < l.length
    · rw [getD_set_self _ _ _ _ hlen]
    · rw [List.set_eq_of_length_le (le_of_not_lt hlen)]
      exact h
  · rw [getD_set_ne _ _ _ hij]
    exact h

lemma getD_set_true_cases (l : List Bool) (idx i : Nat)
    (h : (l.set idx true).getD i false = true) : i = idx ∨ l.getD i false = true := by
  by_cases hij : idx = i
  · left; exact hij.symm
  · right
    rw [getD_set_ne _ _ _ hij] at h
    exact h

lemma getD_set_some_mono (l : List (Option Nat)) (idx c i : Nat)
    (h : (l.getD i none).isSome = true) :
    ((l.set idx (some c)).getD i none).isSome = true := by
  by_cases hij : idx = i
  · subst hij
    by_cases hlen : idx < l.length
    · rw [getD_set_self _ _ _ _ hlen]
      rfl
    · rw [List.set_eq_of_length_le (le_of_not_lt hlen)]
      exact h
  · rw [getD_set_ne _ _ _ hij]
    exact h

lemma getD_set_value_cases (l : List (Option Nat)) (idx : Nat) (v : Option Nat) (i : Nat) :
    (l.set idx v).getD i none = l.getD i none ∨ (l.set idx v).getD i none = v := by
  by_cases hij : idx = i
  · subst hij
    by_cases hlen : idx < l.length
    · right
      exact getD_set_self _ _ _ _ hlen
    · left
      rw [List.set_eq_of_length_le (le_of_not_lt hlen)]
  · left
    exact getD_set_ne _ _ _ hij

lemma borderWrite_clusters (b : Bool) (c idx : Nat) (st : DbState) :
    (borderWrite b c idx st).clusters =
      if b then st.clusters.set idx (some c) else st.clusters := by
  cases b <;> rfl

lemma coreState_visited (b : Bool) (c idx : Nat) (st : DbState) :
    (coreWrite b c idx (markVisited idx (borderWrite b c idx st))).visited =
      st.visited.set idx true := by
  rw [coreWrite_visited]
  show (borderWrite b c idx st).visited.set idx true = _
  rw [borderWrite_visited]

lemma coreState_clusters (b : Bool) (c idx : Nat) (st : DbState) :
    (coreWrite b c idx (markVisited idx (borderWrite b c idx st))).clusters =
      st.clusters.set idx (some c) := by
  cases b <;> simp [coreWrite, markVisited, borderWrite]

lemma nonCoreState_visited (b : Bool) (c idx : Nat) (st : DbState) :
    (markVisited idx (borderWrite b c idx st)).visited = st.visited.set idx true := by
  show (borderWrite b c idx st).visited.set idx true = _
  rw [borderWrite_visited]

lemma nonCoreState_clusters (b : Bool) (c idx : Nat) (st : DbState) :
    (markVisited idx (borderWrite b c idx st)).clusters =
      (borderWrite b c idx st).clusters := rfl

lemma expand_rec (q : Nat → List Nat) (m : Nat) (b : Bool) (c : Nat)
    (P : List Nat → DbState → DbState → Prop)
    (hempty : ∀ fr st, fr.getLast? = none → P fr st st)
    (hvis : ∀ fr st idx st', fr.getLast? = some idx →
      st.visited.getD idx false = true →
      P fr.dropLast (borderWrite b c idx st) st' → P fr st st')
    (hcore : ∀ fr st idx st', fr.getLast? = some idx →
      st.visited.getD idx false = false → m ≤ (q idx).length →
      P (sortDedup (fr.dropLast ++ q idx))
        (coreWrite b c idx (markVisited idx (borderWrite b c idx st))) st' →
      P fr st st')
    (hnon : ∀ fr st idx st', fr.getLast? = some idx →
      st.visited.getD idx false = false → ¬ m ≤ (q idx).length →
      P fr.dropLast (markVisited idx (borderWrite b c idx st)) st' → P fr st st') :
    ∀ fuel fr st st', expand q m b c fuel fr st = some st' → P fr st st' := by
  intro fuel
  induction fuel with
  | zero =>
    intro fr st st' h
    rw [expand_zero] at h
    cases h
  | succ fuel ih =>
    intro fr st st' h
    cases hfr : fr.getLast? with
    | none =>
      rw [expand_empty q m b c fuel fr st hfr] at h
      cases h
      exact hempty fr st hfr
    | some idx =>
      cases hv : st.visited.getD idx false with
      | false =>
        by_cases hc : m ≤ (q idx).length
        · rw [expand_pop_core q m b c fuel fr st idx hfr hv hc] at h
          exact hcore fr st idx st' hfr hv hc (ih _ _ _ h)
        · rw [expand_pop_noncore q m b c fuel fr st idx hfr hv hc] at h
          exact hnon fr st idx st' hfr hv hc (ih _ _ _ h)
      | true =>
        rw [expand_pop_visited q m b c fuel fr st idx hfr hv] at h
        exact hvis fr st idx st' hfr hv (ih _ _ _ h)

lemma expand_visited_mono (q : Nat → List Nat) (m : Nat) (b : Bool) (c fuel : Nat)
    (fr : List Nat) (st st' : DbState) (h : expand q m b c fuel fr st = some st') :
    ∀ i, st.visited.getD i false = true → st'.visited.getD i false = true := by
  refine expand_rec q m b c
    (fun _ st st' => ∀ i, st.visited.getD i false = true →
      st'.visited.getD i false = true) ?_ ?_ ?_ ?_ fuel fr st st' h
  · intro _ _ _ i hi
    exact hi
  · intro _ st _ _ _ _ ihp i hi
    refine ihp i ?_
    rw [borderWrite_visited]
    exact hi
  · intro _ st idx _ _ _ _ ihp i hi
    refine ihp i ?_
    rw [coreState_visited]
    exact getD_set_true_mono _ _ _ hi
  · intro _ st idx _ _ _ _ ihp i hi
    refine ihp i ?_
    rw [nonCoreState_visited]
    exact getD_set_true_mono _ _ _ hi

lemma expand_lengths (q : Nat → List Nat) (m : Nat) (b : Bool) (c fuel : Nat)
    (fr : List Nat) (st st' : DbState) (h : expand q m b c fuel fr st = some st') :
    st'.visited.length = st.visited.length ∧
      st'.clusters.length = st.clusters.length := by
  refine expand_rec q m b c
    (fun _ st st' => st'.visited.length = st.visited.length ∧
      st'.clusters.length = st.clusters.length) ?_ ?_ ?_ ?_ fuel fr st st' h
  · intro _ _ _
    exact ⟨rfl, rfl⟩
  · intro _ st idx _ _ _ ihp
    refine ⟨?_, ?_⟩
    · rw [ihp.1, borderWrite_visited]
    · rw [ihp.2, borderWrite_clusters]
      cases b <;> simp
  · intro _ st idx _ _ _ _ ihp
    refine ⟨?_, ?_⟩
    · rw [ihp.1, coreState_visited]
      simp
    · rw [ihp.2, coreState_clusters]
      simp
  · intro _ st idx _ _ _ _ ihp
    refine ⟨?_, ?_⟩
    · rw [ihp.1, nonCoreState_visited]
      simp
    · rw [ihp.2, nonCoreState_clusters, borderWrite_clusters]
      cases b <;> simp

lemma borderWrite_false (c idx : Nat) (st : DbState) :
    borderWrite false c idx st = st := rfl

lemma borderWrite_some_mono (b : Bool) (c idx i : Nat) (st : DbState)
    (h : (st.clusters.getD i none).isSome = true) :
    ((borderWrite b c idx st).clusters.getD i none).isSome = true := by
  rw [borderWrite_clusters]
  cases b
  · simpa using h
  · simpa using getD_set_some_mono _ idx c i h

lemma expand_some_mono (q : Nat → List Nat) (m : Nat) (b : Bool) (c fuel : Nat)
    (fr : List Nat) (st st' : DbState) (h : expand q m b c fuel fr st = some st') :
    ∀ i, (st.clusters.getD i none).isSome = true →
      (st'.clusters.getD i none).isSome = true := by
  refine expand_rec q m b c
    (fun _ st st' => ∀ i, (st.clusters.getD i none).isSome = true →
      (st'.clusters.getD i none).isSome = true) ?_ ?_ ?_ ?_ fuel fr st st' h
  · intro _ _ _ i hi
    exact hi
  · intro _ st idx _ _ _ ihp i hi
    exact ihp i (borderWrite_some_mono b c idx i st hi)
  · intro _ st idx _ _ _ _ ihp i hi
    refine ihp i ?_
    rw [coreState_clusters]
    exact getD_set_some_mono _ idx c i hi
  · intro _ st idx _ _ _ _ ihp i hi
    refine ihp i ?_
    rw [nonCoreState_clusters]
    exact borderWrite_some_mono b c idx i st hi

lemma expand_label_write (q : Nat → List Nat) (m : Nat) (b : Bool) (c fuel : Nat)
    (fr : List Nat) (st st' : DbState) (h : expand q m b c fuel fr st = some st') :
    ∀ i, st'.clusters.getD i none ≠ st.clusters.getD i none →
      st'.clusters.getD i none = some c := by
  refine expand_rec q m b c
    (fun _ st st' => ∀ i, st'.clusters.getD i none ≠ st.clusters.getD i none →
      st'.clusters.getD i none = some c) ?_ ?_ ?_ ?_ fuel fr st st' h
  · intro _ _ _ i hne
    exact absurd rfl hne
  · intro _ st idx st' _ _ ihp i hne
    by_cases heq : st'.clusters.getD i none = (borderWrite b c idx st).clusters.getD i none
    · rw [heq]
      have hbw : (borderWrite b c idx st).clusters.getD i none ≠ st.clusters.getD i none :=
        fun hh => hne (heq.trans hh)
      rw [borderWrite_clusters] at hbw ⊢
      cases b
      · simp at hbw
      · simp only [if_pos rfl] at hbw ⊢
        rcases getD_set_value_cases st.clusters idx (some c) i with hcase | hcase
        · exact absurd hcase hbw
        · exact hcase
    · exact ihp i heq
  · intro _ st idx st' _ _ _ ihp i hne
    by_cases heq : st'.clusters.getD i none =
        (coreWrite b c idx (markVisited idx (borderWrite b c idx st))).clusters.getD i none
    · rw [heq]
      have hcw : (coreWrite b c idx (markVisited idx
          (borderWrite b c idx st))).clusters.getD i none ≠ st.clusters.getD i none :=
        fun hh => hne (heq.trans hh)
      rw [coreState_clusters] at hcw ⊢
      rcases getD_set_value_cases st.clusters idx (some c) i with hcase | hcase
      · exact absurd hcase hcw
      · exact hcase
    · exact ihp i heq
  · intro _ st idx st' _ _ _ ihp i hne
    by_cases heq : st'.clusters.getD i none =
        (markVisited idx (borderWrite b c idx st)).clusters.getD i none
    · rw [heq]
      have hbw : (markVisited idx (borderWrite b c idx st)).clusters.getD i none ≠
          st.clusters.getD i none := fun hh => hne (heq.trans hh)
      rw [nonCoreState_clusters, borderWrite_clusters] at hbw ⊢
      cases b
      · simp at hbw
      · simp only [if_pos rfl] at hbw ⊢
        rcases getD_set_value_cases st.clusters idx (some c) i with hcase | hcase
        · exact absurd hcase hbw
        · exact hcase
    · exact ihp i heq

lemma expand_labels_stable (q : Nat → List Nat) (m c fuel : Nat)
    (fr : List Nat) (st st' : DbState) (h : expand q m false c fuel fr st = some st')
    (hlen : st.visited.length = st.clusters.length)
    (hinv : ∀ j, (st.clusters.getD j none).isSome = true →
      st.visited.getD j false = true) :
    (∀ j, (st'.clusters.getD j none).isSome = true →
      st'.visited.getD j false = true) ∧
    (∀ i co, st.clusters.getD i none = some co →
      st'.clusters.getD i none = some co) := by
  refine expand_rec q m false c
    (fun _ st st' =>
      st.visited.length = st.clusters.length →
      (∀ j, (st.clusters.getD j none).isSome = true →
        st.visited.getD j false = true) →
      ((∀ j, (st'.clusters.getD j none).isSome = true →
        st'.visited.getD j false = true) ∧
       (∀ i co, st.clusters.getD i none = some co →
        st'.clusters.getD i none = some co)))
    ?_ ?_ ?_ ?_ fuel fr st st' h hlen hinv
  · intro _ _ _ hl hi
    exact ⟨hi, fun i co hco => hco⟩
  · intro _ st idx st' _ hv ihp hl hi
    rw [borderWrite_false] at ihp
    exact ihp hl hi
  · intro _ st idx st' _ hv hc ihp hl hi
    rw [borderWrite_false] at ihp
    have hvl : (coreWrite false c idx (markVisited idx st)).visited =
        st.visited.set idx true := by
      have := coreState_visited false c idx st
      rw [borderWrite_false] at this
      exact this
    have hcl : (coreWrite false c idx (markVisited idx st)).clusters =
        st.clusters.set idx (some c) := by
      have := coreState_clusters false c idx st
      rw [borderWrite_false] at this
      exact this
    have hidx_unlab : ¬ (st.clusters.getD idx none).isSome = true := by
      intro hlab
      rw [hi idx hlab] at hv
      cases hv
    have hnext := ihp ?_ ?_
    · refine ⟨hnext.1, ?_⟩
      intro i co hco
      have hne : i ≠ idx := by
        intro hh
        subst hh
        exact hidx_unlab (by rw [hco]; rfl)
      refine hnext.2 i co ?_
      rw [hcl, getD_set_ne _ _ _ (fun hh => hne hh.symm)]
      exact hco
    · rw [hvl, hcl]
      simp [hl]
    · intro j hj
      rw [hcl] at hj
      rw [hvl]
      by_cases hlen2 : idx < st.clusters.length
      · by_cases hij : idx = j
        · subst hij
          exact getD_set_self _ _ _ _ (by rw [hl]; exact hlen2)
        · rw [getD_set_ne _ _ _ hij] at hj
          exact getD_set_true_mono _ _ _ (hi j hj)
      · rw [List.set_eq_of_length_le (le_of_not_lt hlen2)] at hj
        exact getD_set_true_mono _ _ _ (hi j hj)
  · intro _ st idx st' _ hv hc ihp hl hi
    rw [borderWrite_false] at ihp
    have hnext := ihp ?_ ?_
    · exact ⟨hnext.1, fun i co hco => hnext.2 i co hco⟩
    · show (st.visited.set idx true).length = st.clusters.length
      simp [hl]
    · intro j hj
      show (st.visited.set idx true).getD j false = true
      exact getD_set_true_mono _ _ _ (hi j hj)

lemma expand_frontier_visited (q : Nat → List Nat) (m : Nat) (b : Bool) (c : Nat)
    (n : Nat) (hq : ∀ i x, x ∈ q i → x < n) (fuel : Nat)
    (fr : List Nat) (st st' : DbState) (h : expand q m b c fuel fr st = some st')
    (hlen : st.visited.length = n) (hbd : ∀ x ∈ fr, x < n) :
    ∀ x ∈ fr, st'.visited.getD x false = true := by
  refine (expand_rec q m b c
    (fun fr st st' =>
      st.visited.length = n → (∀ x ∈ fr, x < n) →
      ((∀ i, st.visited.getD i false = true → st'.visited.getD i false = true) ∧
       (∀ x ∈ fr, st'.visited.getD x false = true)))
    ?_ ?_ ?_ ?_ fuel fr st st' h hlen hbd).2
  · intro fr st hfr _ _
    refine ⟨fun i hi => hi, ?_⟩
    intro x hx
    rw [List.getLast?_eq_none_iff] at hfr
    subst hfr
    simp at hx
  · intro fr st idx st' hfr hv ihp hl hb
    have hnext := ihp (by rw [borderWrite_visited]; exact hl)
      (fun x hx => hb x (List.dropLast_subset fr hx))
    have hmono : ∀ i, st.visited.getD i false = true →
        st'.visited.getD i false = true :=
      fun i hi => hnext.1 i (by rw [borderWrite_visited]; exact hi)
    refine ⟨hmono, ?_⟩
    intro x hx
    rcases mem_fr_cases hfr hx with hx1 | rfl
    · exact hnext.2 x hx1
    · exact hmono x hv
  · intro fr st idx st' hfr hv hc ihp hl hb
    have hidx : idx < n := hb idx (mem_of_getLast? hfr)
    have hnext := ihp (by rw [coreState_visited]; simp [hl]) ?_
    · have hmono : ∀ i, st.visited.getD i false = true →
          st'.visited.getD i false = true := by
        intro i hi
        refine hnext.1 i ?_
        rw [coreState_visited]
        exact getD_set_true_mono _ _ _ hi
      refine ⟨hmono, ?_⟩
      intro x hx
      rcases mem_fr_cases hfr hx with hx1 | rfl
      · refine hnext.2 x ?_
        rw [mem_sortDedup]
        exact List.mem_append.mpr (Or.inl hx1)
      · refine hnext.1 x ?_
        rw [coreState_visited]
        exact getD_set_self _ _ _ _ (by rw [hl]; exact hidx)
    · intro x hx
      rw [mem_sortDedup] at hx
      rcases List.mem_append.mp hx with hx1 | hx2
      · exact hb x (List.dropLast_subset fr hx1)
      · exact hq idx x hx2
  · intro fr st idx st' hfr hv hc ihp hl hb
    have hidx : idx < n := hb idx (mem_of_getLast? hfr)
    have hnext := ihp (by rw [nonCoreState_visited]; simp [hl])
      (fun x hx => hb x (List.dropLast_subset fr hx))
    have hmono : ∀ i, st.visited.getD i false = true →
        st'.visited.getD i false = true := by
      intro i hi
      refine hnext.1 i ?_
      rw [nonCoreState_visited]
      exact getD_set_true_mono _ _ _ hi
    refine ⟨hmono, ?_⟩
    intro x hx
    rcases mem_fr_cases hfr hx with hx1 | rfl
    · exact hnext.2 x hx1
    · refine hnext.1 x ?_
      rw [nonCoreState_visited]
      exact getD_set_self _ _ _ _ (by rw [hl]; exact hidx)

lemma expand_core_inv (q : Nat → List Nat) (m : Nat) (b : Bool) (c : Nat)
    (n : Nat) (hq : ∀ i x, x ∈ q i → x < n) (fuel : Nat)
    (fr : List Nat) (st st' : DbState) (h : expand q m b c fuel fr st = some st')
    (hvl : st.visited.length = n) (hcl : st.clusters.length = n)
    (hbd : ∀ x ∈ fr, x < n)
    (hinv : ∀ i, st.visited.getD i false = true → m ≤ (q i).length →
      (st.clusters.getD i none).isSome = true) :
    ∀ i, st'.visited.getD i false = true → m ≤ (q i).length →
      (st'.clusters.getD i none).isSome = true := by
  refine expand_rec q m b c
    (fun fr st st' =>
      st.visited.length = n → st.clusters.length = n → (∀ x ∈ fr, x < n) →
      (∀ i, st.visited.getD i false = true → m ≤ (q i).length →
        (st.clusters.getD i none).isSome = true) →
      (∀ i, st'.visited.getD i false = true → m ≤ (q i).length →
        (st'.clusters.getD i none).isSome = true))
    ?_ ?_ ?_ ?_ fuel fr st st' h hvl hcl hbd hinv
  · intro _ _ _ _ _ _ hi
    exact hi
  · intro fr st idx st' hfr hv ihp hl1 hl2 hb hi
    refine ihp (by rw [borderWrite_visited]; exact hl1) ?_
      (fun x hx => hb x (List.dropLast_subset fr hx)) ?_
    · rw [borderWrite_clusters]
      cases b <;> simp [hl2]
    · intro i hvi hci
      rw [borderWrite_visited] at hvi
      exact borderWrite_some_mono b c idx i st (hi i hvi hci)
  · intro fr st idx st' hfr hv hc ihp hl1 hl2 hb hi
    have hidx : idx < n := hb idx (mem_of_getLast? hfr)
    refine ihp (by rw [coreState_visited]; simp [hl1])
      (by rw [coreState_clusters]; simp [hl2]) ?_ ?_
    · intro x hx
      rw [mem_sortDedup] at hx
      rcases List.mem_append.mp hx with hx1 | hx2
      · exact hb x (List.dropLast_subset fr hx1)
      · exact hq idx x hx2
    · intro i hvi hci
      rw [coreState_visited] at hvi
      rw [coreState_clusters]
      rcases getD_set_true_cases _ _ _ hvi with rfl | hold
      · rw [getD_set_self _ _ _ _ (by rw [hl2]; exact hidx)]
        rfl
      · exact getD_set_some_mono _ idx c i (hi i hold hci)
  · intro fr st idx st' hfr hv hc ihp hl1 hl2 hb hi
    refine ihp (by rw [nonCoreState_visited]; simp [hl1]) ?_
      (fun x hx => hb x (List.dropLast_subset fr hx)) ?_
    · rw [nonCoreState_clusters, borderWrite_clusters]
      cases b <;> simp [hl2]
    · intro i hvi hci
      rw [nonCoreState_visited] at hvi
      rw [nonCoreState_clusters]
      rcases getD_set_true_cases _ _ _ hvi with rfl | hold
      · exact absurd hci hc
      · exact borderWrite_some_mono b c idx i st (hi i hold hci)

lemma getD_false_of_lt (l : List Bool) (i : Nat) (h : i < l.length)
    (hf : l.getD i false = false) : l[i] = false := by
  rw [List.getD_eq_getElem?_getD, List.getElem?_eq_getElem h] at hf
  simpa using hf

lemma count_false_set_true (l : List Bool) (idx : Nat) (h : idx < l.length)
    (hf : l.getD idx false = false) :
    (l.set idx true).count false + 1 = l.count false := by
  rw [List.count_set true false l idx h]
  have he : l[idx] = false := getD_false_of_lt _ _ h hf
  have hpos : 0 < l.count false := List.count_pos_iff.mpr (he ▸ List.getElem_mem h)
  simp [he]
  omega

lemma unvisCount_borderWrite (b : Bool) (c idx : Nat) (st : DbState) :
    unvisCount (borderWrite b c idx st) = unvisCount st := by
  unfold unvisCount
  rw [borderWrite_visited]

lemma expand_fuel_sufficient (q : Nat → List Nat) (m : Nat) (b : Bool) (c : Nat)
    (n : Nat) (hq : ∀ i x, x ∈ q i → x < n) :
    ∀ fuel fr st, (∀ x ∈ fr, x < n) → fr.Nodup → st.visited.length = n →
      unvisCount st * (n + 1) + fr.length < fuel →
      (expand q m b c fuel fr st).isSome = true := by
  intro fuel
  induction fuel with
  | zero =>
    intro fr st _ _ _ hm
    exact absurd hm (by omega)
  | succ fuel ih =>
    intro fr st hbd hnd hl hm
    cases hfr : fr.getLast? with
    | none =>
      rw [expand_empty q m b c fuel fr st hfr]
      rfl
    | some idx =>
      have hfrlen : fr.length = fr.dropLast.length + 1 := by
        conv_lhs => rw [getLast?_decomp hfr]
        simp
      have hidx : idx < n := hbd idx (mem_of_getLast? hfr)
      cases hv : st.visited.getD idx false with
      | true =>
        rw [expand_pop_visited q m b c fuel fr st idx hfr hv]
        apply ih
        · exact fun x hx => hbd x (List.dropLast_subset fr hx)
        · exact (List.dropLast_sublist fr).nodup hnd
        · rw [borderWrite_visited]
          exact hl
        · rw [unvisCount_borderWrite]
          omega
      | false =>
        have hcnt : unvisCount (markVisited idx (borderWrite b c idx st)) + 1 =
            unvisCount st := by
          show (markVisited idx (borderWrite b c idx st)).visited.count false + 1 =
            st.visited.count false
          rw [nonCoreState_visited]
          exact count_false_set_true _ _ (by rw [hl]; exact hidx) hv
        by_cases hc : m ≤ (q idx).length
        · rw [expand_pop_core q m b c fuel fr st idx hfr hv hc]
          have hbd2 : ∀ x ∈ sortDedup (fr.dropLast ++ q idx), x < n := by
            intro x hx
            rw [mem_sortDedup] at hx
            rcases List.mem_append.mp hx with hx1 | hx2
            · exact hbd x (List.dropLast_subset fr hx1)
            · exact hq idx x hx2
          apply ih
          · exact hbd2
          · exact sortDedup_nodup _
          · rw [coreState_visited]
            simp [hl]
          · have h2 : (sortDedup (fr.dropLast ++ q idx)).length ≤ n :=
              sortDedup_length_le _ n
                (fun x hx => hbd2 x ((mem_sortDedup x _).mpr hx))
            have hS : unvisCount (coreWrite b c idx (markVisited idx
                (borderWrite b c idx st))) =
                unvisCount (markVisited idx (borderWrite b c idx st)) := by
              show (coreWrite _ _ _ _).visited.count false = _
              rw [coreWrite_visited]
              rfl
            rw [hS]
            have h3 : unvisCount (markVisited idx (borderWrite b c idx st)) * (n + 1) +
                (n + 1) = unvisCount st * (n + 1) := by
              rw [← hcnt]
              ring
            omega
        · rw [expand_pop_noncore q m b c fuel fr st idx hfr hv hc]
          apply ih
          · exact fun x hx => hbd x (List.dropLast_subset fr hx)
          · exact (List.dropLast_sublist fr).nodup hnd
          · rw [nonCoreState_visited]
            simp [hl]
          · have h3 : unvisCount (markVisited idx (borderWrite b c idx st)) * (n + 1) +
                (n + 1) = unvisCount st * (n + 1) := by
              rw [← hcnt]
              ring
            omega

lemma seedState_visited (c r : Nat) (st : DbState) :
    (seedWrite c r (markVisited r st)).visited = st.visited.set r true := rfl

lemma seedState_clusters (c r : Nat) (st : DbState) :
    (seedWrite c r (markVisited r st)).clusters = st.clusters.set r (some c) := rfl

lemma fitRows_rec (q : Nat → List Nat) (m : Nat) (b : Bool) (fuel : Nat)
    (P : List Nat → Nat → DbState → DbState → Prop)
    (hnil : ∀ c st, P [] c st st)
    (hvis : ∀ r rows c st st', st.visited.getD r false = true →
      P rows c st st' → P (r :: rows) c st st')
    (hcore : ∀ r rows c st stm st', st.visited.getD r false = false →
      m ≤ (sortDedup (q r)).length →
      expand q m b c fuel (sortDedup (q r)) (seedWrite c r (markVisited r st)) =
        some stm →
      P rows (c + 1) stm st' → P (r :: rows) c st st')
    (hnon : ∀ r rows c st st', st.visited.getD r false = false →
      ¬ m ≤ (sortDedup (q r)).length →
      P rows c (markVisited r st) st' → P (r :: rows) c st st') :
    ∀ rows c st st', fitRows q m b fuel rows c st = some st' → P rows c st st' := by
  intro rows
  induction rows with
  | nil =>
    intro c st st' h
    rw [fitRows_nil] at h
    cases h
    exact hnil c st
  | cons r rows ih =>
    intro c st st' h
    cases hv : st.visited.getD r false with
    | true =>
      rw [fitRows_cons_visited q m b fuel r rows c st hv] at h
      exact hvis r rows c st st' hv (ih _ _ _ h)
    | false =>
      by_cases hc : m ≤ (sortDedup (q r)).length
      · rw [fitRows_cons_core q m b fuel r rows c st hv hc] at h
        cases hex : expand q m b c fuel (sortDedup (q r))
            (seedWrite c r (markVisited r st)) with
        | none =>
          rw [hex] at h
          simp at h
        | some stm =>
          rw [hex] at h
          exact hcore r rows c st stm st' hv hc hex (ih _ _ _ h)
      · rw [fitRows_cons_noncore q m b fuel r rows c st hv hc] at h
        exact hnon r rows c st st' hv hc (ih _ _ _ h)

lemma fitRows_visited_mono (q : Nat → List Nat) (m : Nat) (b : Bool) (fuel : Nat)
    (rows : List Nat) (c : Nat) (st st' : DbState)
    (h : fitRows q m b fuel rows c st = some st') :
    ∀ i, st.visited.getD i false = true → st'.visited.getD i false = true := by
  refine fitRows_rec q m b fuel
    (fun _ _ st st' => ∀ i, st.visited.getD i false = true →
      st'.visited.getD i false = true) ?_ ?_ ?_ ?_ rows c st st' h
  · intro _ _ i hi
    exact hi
  · intro _ _ _ _ _ _ ihp i hi
    exact ihp i hi
  · intro r _ c st stm _ _ _ hex ihp i hi
    refine ihp i (expand_visited_mono _ _ _ _ _ _ _ _ hex i ?_)
    rw [seedState_visited]
    exact getD_set_true_mono _ _ _ hi
  · intro r _ _ st _ _ _ ihp i hi
    refine ihp i ?_
    show (st.visited.set r true).getD i false = true
    exact getD_set_true_mono _ _ _ hi

lemma fitRows_lengths (q : Nat → List Nat) (m : Nat) (b : Bool) (fuel : Nat)
    (rows : List Nat) (c : Nat) (st st' : DbState)
    (h : fitRows q m b fuel rows c st = some st') :
    st'.visited.length = st.visited.length ∧
      st'.clusters.length = st.clusters.length := by
  refine fitRows_rec q m b fuel
    (fun _ _ st st' => st'.visited.length = st.visited.length ∧
      st'.clusters.length = st.clusters.length) ?_ ?_ ?_ ?_ rows c st st' h
  · intro _ _
    exact ⟨rfl, rfl⟩
  · intro _ _ _ _ _ _ ihp
    exact ihp
  · intro r _ c st stm _ _ _ hex ihp
    have he := expand_lengths _ _ _ _ _ _ _ _ hex
    constructor
    · rw [ihp.1, he.1, seedState_visited]
      simp
    · rw [ihp.2, he.2, seedState_clusters]
      simp
  · intro r _ _ st _ _ _ ihp
    constructor
    · rw [ihp.1]
      show (st.visited.set r true).length = _
      simp
    · exact ihp.2

lemma fitRows_some_mono (q : Nat → List Nat) (m : Nat) (b : Bool) (fuel : Nat)
    (rows : List Nat) (c : Nat) (st st' : DbState)
    (h : fitRows q m b fuel rows c st = some st') :
    ∀ i, (st.clusters.getD i none).isSome = true →
      (st'.clusters.getD i none).isSome = true := by
  refine fitRows_rec q m b fuel
    (fun _ _ st st' => ∀ i, (st.clusters.getD i none).isSome = true →
      (st'.clusters.getD i none).isSome = true) ?_ ?_ ?_ ?_ rows c st st' h
  · intro _ _ i hi
    exact hi
  · intro _ _ _ _ _ _ ihp i hi
    exact ihp i hi
  · intro r _ c st stm _ _ _ hex ihp i hi
    refine ihp i (expand_some_mono _ _ _ _ _ _ _ _ hex i ?_)
    rw [seedState_clusters]
    exact getD_set_some_mono _ _ _ _ hi
  · intro _ _ _ _ _ _ _ ihp i hi
    exact ihp i hi

lemma fitRows_rows_visited (q : Nat → List Nat) (m : Nat) (b : Bool) (fuel : Nat)
    (n : Nat) (rows : List Nat) (c : Nat) (st st' : DbState)
    (h : fitRows q m b fuel rows c st = some st')
    (hl : st.visited.length = n) (hr : ∀ r ∈ rows, r < n) :
    ∀ r ∈ rows, st'.visited.getD r false = true := by
  refine (fitRows_rec q m b fuel
    (fun rows _ st st' =>
      st.visited.length = n → (∀ r ∈ rows, r < n) →
      ((∀ i, st.visited.getD i false = true → st'.visited.getD i false = true) ∧
       (∀ r ∈ rows, st'.visited.getD r false = true)))
    ?_ ?_ ?_ ?_ rows c st st' h hl hr).2
  · intro _ _ _ _
    exact ⟨fun i hi => hi, by simp⟩
  · intro r rows c st st' hv ihp hl1 hb
    have hnext := ihp hl1 (fun x hx => hb x (List.mem_cons_of_mem r hx))
    refine ⟨hnext.1, ?_⟩
    intro x hx
    rcases List.mem_cons.mp hx with rfl | hx2
    · exact hnext.1 x hv
    · exact hnext.2 x hx2
  · intro r rows c st stm st' hv hc hex ihp hl1 hb
    have hrn : r < n := hb r (List.mem_cons_self r rows)
    have he := expand_lengths _ _ _ _ _ _ _ _ hex
    have hlm : stm.visited.length = n := by
      rw [he.1, seedState_visited]
      simp [hl1]
    have hnext := ihp hlm (fun x hx => hb x (List.mem_cons_of_mem r hx))
    have hmono : ∀ i, st.visited.getD i false = true →
        st'.visited.getD i false = true := by
      intro i hi
      refine hnext.1 i (expand_visited_mono _ _ _ _ _ _ _ _ hex i ?_)
      rw [seedState_visited]
      exact getD_set_true_mono _ _ _ hi
    refine ⟨hmono, ?_⟩
    intro x hx
    rcases List.mem_cons.mp hx with rfl | hx2
    · refine hnext.1 x (expand_visited_mono _ _ _ _ _ _ _ _ hex x ?_)
      rw [seedState_visited]
      exact getD_set_self _ _ _ _ (by rw [hl1]; exact hrn)
    · exact hnext.2 x hx2
  · intro r rows c st st' hv hc ihp hl1 hb
    have hrn : r < n := hb r (List.mem_cons_self r rows)
    have hnext := ihp (by show (st.visited.set r true).length = n; simp [hl1])
      (fun x hx => hb x (List.mem_cons_of_mem r hx))
    have hmono : ∀ i, st.visited.getD i false = true →
        st'.visited.getD i false = true := by
      intro i hi
      refine hnext.1 i ?_
      show (st.visited.set r true).getD i false = true
      exact getD_set_true_mono _ _ _ hi
    refine ⟨hmono, ?_⟩
    intro x hx
    rcases List.mem_cons.mp hx with rfl | hx2
    · refine hnext.1 x ?_
      show (st.visited.set x true).getD x false = true
      exact getD_set_self _ _ _ _ (by rw [hl1]; exact hrn)
    · exact hnext.2 x hx2

lemma fitRows_core_inv (q : Nat → List Nat) (m : Nat) (b : Bool) (fuel : Nat)
    (n : Nat) (hq : ∀ i x, x ∈ q i → x < n) (hnd : ∀ i, (q i).Nodup)
    (rows : List Nat) (c : Nat) (st st' : DbState)
    (h : fitRows q m b fuel rows c st = some st')
    (hvl : st.visited.length = n) (hcl : st.clusters.length = n)
    (hrb : ∀ r ∈ rows, r < n)
    (hinv : ∀ i, st.visited.getD i false = true → m ≤ (q i).length →
      (st.clusters.getD i none).isSome = true) :
    ∀ i, st'.visited.getD i false = true → m ≤ (q i).length →
      (st'.clusters.getD i none).isSome = true := by
  refine fitRows_rec q m b fuel
    (fun rows _ st st' =>
      st.visited.length = n → st.clusters.length = n → (∀ r ∈ rows, r < n) →
      (∀ i, st.visited.getD i false = true → m ≤ (q i).length →
        (st.clusters.getD i none).isSome = true) →
      (∀ i, st'.visited.getD i false = true → m ≤ (q i).length →
        (st'.clusters.getD i none).isSome = true))
    ?_ ?_ ?_ ?_ rows c st st' h hvl hcl hrb hinv
  · intro _ _ _ _ _ hi
    exact hi
  · intro r rows c st st' hv ihp hl1 hl2 hb hi
    exact ihp hl1 hl2 (fun x hx => hb x (List.mem_cons_of_mem r hx)) hi
  · intro r rows c st stm st' hv hc hex ihp hl1 hl2 hb hi
    have hrn : r < n := hb r (List.mem_cons_self r rows)
    have he := expand_lengths _ _ _ _ _ _ _ _ hex
    have hSinv : ∀ i, (seedWrite c r (markVisited r st)).visited.getD i false = true →
        m ≤ (q i).length →
        ((seedWrite c r (markVisited r st)).clusters.getD i none).isSome = true := by
      intro i hvi hci
      rw [seedState_visited] at hvi
      rw [seedState_clusters]
      rcases getD_set_true_cases _ _ _ hvi with rfl | hold
      · rw [getD_set_self _ _ _ _ (by rw [hl2]; exact hrn)]
        rfl
      · exact getD_set_some_mono _ _ _ _ (hi i hold hci)
    have hstm := expand_core_inv q m b c n hq fuel _ _ _ hex
      (by rw [seedState_visited]; simp [hl1])
      (by rw [seedState_clusters]; simp [hl2])
      (fun x hx => hq r x ((mem_sortDedup x _).mp hx)) hSinv
    refine ihp ?_ ?_ (fun x hx => hb x (List.mem_cons_of_mem r hx)) hstm
    · rw [he.1, seedState_visited]
      simp [hl1]
    · rw [he.2, seedState_clusters]
      simp [hl2]
  · intro r rows c st st' hv hc ihp hl1 hl2 hb hi
    refine ihp (by show (st.visited.set r true).length = n; simp [hl1]) hl2
      (fun x hx => hb x (List.mem_cons_of_mem r hx)) ?_
    intro i hvi hci
    show ((markVisited r st).clusters.getD i none).isSome = true
    have hvi2 : (st.visited.set r true).getD i false = true := hvi
    rcases getD_set_true_cases _ _ _ hvi2 with rfl | hold
    · exfalso
      apply hc
      rw [sortDedup_length_of_nodup _ (hnd i)]
      exact hci
    · exact hi i hold hci

lemma fitRows_fuel_sufficient (q : Nat → List Nat) (m : Nat) (b : Bool)
    (n : Nat) (hq : ∀ i x, x ∈ q i → x < n) :
    ∀ rows c st, (∀ r ∈ rows, r < n) → st.visited.length = n →
      (fitRows q m b (fitFuel n) rows c st).isSome = true := by
  intro rows
  induction rows with
  | nil =>
    intro c st _ _
    rw [fitRows_nil]
    rfl
  | cons r rows ih =>
    intro c st hb hl
    cases hv : st.visited.getD r false with
    | true =>
      rw [fitRows_cons_visited q m b (fitFuel n) r rows c st hv]
      exact ih c st (fun x hx => hb x (List.mem_cons_of_mem r hx)) hl
    | false =>
      have hrn : r < n := hb r (List.mem_cons_self r rows)
      by_cases hc : m ≤ (sortDedup (q r)).length
      · rw [fitRows_cons_core q m b (fitFuel n) r rows c st hv hc]
        have hfrb : ∀ x ∈ sortDedup (q r), x < n :=
          fun x hx => hq r x ((mem_sortDedup x _).mp hx)
        have hex : (expand q m b c (fitFuel n) (sortDedup (q r))
            (seedWrite c r (markVisited r st))).isSome = true := by
          apply expand_fuel_sufficient q m b c n hq
          · exact hfrb
          · exact sortDedup_nodup _
          · rw [seedState_visited]
            simp [hl]
          · have h1 : unvisCount (seedWrite c r (markVisited r st)) + 1 =
                unvisCount st := by
              show (st.visited.set r true).count false + 1 = st.visited.count false
              exact count_false_set_true _ _ (by rw [hl]; exact hrn) hv
            have h2 : unvisCount st ≤ n := by
              have := List.count_le_length false st.visited
              rw [hl] at this
              exact this
            have h3 : (sortDedup (q r)).length ≤ n :=
              sortDedup_length_le _ n (fun x hx => hq r x hx)
            have h4 : unvisCount (seedWrite c r (markVisited r st)) * (n + 1) ≤
                (n - 1) * (n + 1) :=
              Nat.mul_le_mul_right _ (by omega)
            have h5 : (n - 1) * (n + 1) + (n + 1) = ((n - 1) + 1) * (n + 1) := by
              ring
            have h6 : ((n - 1) + 1) * (n + 1) ≤ (n + 1) * (n + 1) :=
              Nat.mul_le_mul_right _ (by omega)
            show _ < fitFuel n
            unfold fitFuel
            omega
        obtain ⟨stm, hstm⟩ := Option.isSome_iff_exists.mp hex
        rw [hstm]
        have he := expand_lengths _ _ _ _ _ _ _ _ hstm
        refine ih (c + 1) stm (fun x hx => hb x (List.mem_cons_of_mem r hx)) ?_
        rw [he.1, seedState_visited]
        simp [hl]
      · rw [fitRows_cons_noncore q m b (fitFuel n) r rows c st hv hc]
        refine ih c (markVisited r st) (fun x hx => hb x (List.mem_cons_of_mem r hx)) ?_
        show (st.visited.set r true).length = n
        simp [hl]

lemma replicate_getD_false (n i : Nat) : (List.replicate n false).getD i false = false := by
  rw [List.getD_eq_getElem?_getD, List.getElem?_replicate]
  by_cases h : i < n <;> simp [h]

lemma regionQueryQ_bounded (pts : List (List ℚ)) (eps : ℚ) :
    ∀ i x, x ∈ regionQueryQ pts eps i → x < pts.length := by
  intro i x hx
  unfold regionQueryQ regionQueryRow at hx
  exact List.mem_range.mp (List.mem_filter.mp hx).1

lemma regionQueryQ_nodup (pts : List (List ℚ)) (eps : ℚ) (i : Nat) :
    (regionQueryQ pts eps i).Nodup :=
  (List.nodup_range _).filter _

lemma dbscanFitW_isSome (q : Nat → List Nat) (n minPts : Nat) (borders : Bool)
    (hq : ∀ i x, x ∈ q i → x < n) :
    (dbscanFitW q n minPts borders).isSome = true := by
  unfold dbscanFitW
  have hrun := fitRows_fuel_sufficient q minPts borders n hq (List.range n) 0
    ⟨List.replicate n false, List.replicate n none⟩
    (fun r hr => List.mem_range.mp hr) (by simp)
  obtain ⟨st', hst'⟩ := Option.isSome_iff_exists.mp hrun
  rw [hst']
  rfl

lemma dbscanFit_core_labeled_gen (q : Nat → List Nat) (n minPts : Nat)
    (borders : Bool) (hq : ∀ i x, x ∈ q i → x < n) (hnd : ∀ i, (q i).Nodup)
    (i : Nat) (hi : i < n) (hcore : minPts ≤ (q i).length) :
    ((dbscanFit q n minPts borders).getD i none).isSome = true := by
  unfold dbscanFit dbscanFitW
  have hrun := fitRows_fuel_sufficient q minPts borders n hq (List.range n) 0
    ⟨List.replicate n false, List.replicate n none⟩
    (fun r hr => List.mem_range.mp hr) (by simp)
  obtain ⟨st', hst'⟩ := Option.isSome_iff_exists.mp hrun
  rw [hst']
  have hvis := fitRows_rows_visited q minPts borders (fitFuel n) n (List.range n) 0
    _ _ hst' (by simp) (fun r hr => List.mem_range.mp hr) i (List.mem_range.mpr hi)
  have hlab := fitRows_core_inv q minPts borders (fitFuel n) n hq hnd (List.range n) 0
    _ _ hst' (by simp) (by simp) (fun r hr => List.mem_range.mp hr)
    (fun j hj _ => by rw [replicate_getD_false] at hj; cases hj)
    i hvis hcore
  simpa using hlab

/-- C1: every point whose region-query neighbourhood (which includes the
point itself) has at least `min_points` members at the moment it is visited
ends with a non-`None` entry in the returned clusters vector. -/
theorem fit_core_points_labeled (pts : List (List ℚ)) (eps : ℚ) (minPts : Nat)
    (borders : Bool) (i : Nat) (hi : i < pts.length)
    (hcore : minPts ≤ (regionQueryQ pts eps i).length) :
    ((dbscanFitQ pts eps minPts borders).getD i none).isSome = true :=
  dbscanFit_core_labeled_gen _ _ _ _ (regionQueryQ_bounded pts eps)
    (regionQueryQ_nodup pts eps) i hi hcore

lemma one_point_query_pos (i : Nat) : regionQueryQ [[(0:ℚ)]] 1 i = [0] := by
  match i with
  | 0 => norm_num [regionQueryQ, regionQueryRow, sqDist,
          show List.range 1 = [0] by decide, List.filter_cons, decide_eq_true_eq]
  | (n+1) =>
    have h0 : List.getD [[(0:ℚ)]] (n+1) [] = [] := List.getD_eq_default _ _ (by simp)
    simp only [regionQueryQ, regionQueryRow, h0]
    norm_num [sqDist, List.filter_cons, decide_eq_true_eq, show List.range 1 = [0] by decide]

/-- Witness for `fit_core_points_labeled` on a one-point matrix. -/
theorem fit_core_points_labeled_witness :
    ((dbscanFitQ [[0]] 1 1 false).getD 0 none).isSome = true :=
  fit_core_points_labeled [[0]] 1 1 false 0 (by simp)
    (by rw [one_point_query_pos 0]; decide)

/-- C7: `fit` with `min_points = 0` is accepted and every point is
trivially core, so every point ends with a non-`None` label. -/
theorem fit_minpts_zero_all_labeled (pts : List (List ℚ)) (eps : ℚ)
    (borders : Bool) (i : Nat) (hi : i < pts.length) :
    ((dbscanFitQ pts eps 0 borders).getD i none).isSome = true :=
  dbscanFit_core_labeled_gen _ _ _ _ (regionQueryQ_bounded pts eps)
    (regionQueryQ_nodup pts eps) i hi (Nat.zero_le _)

/-- Witness for `fit_minpts_zero_all_labeled` on a one-point matrix. -/
theorem fit_minpts_zero_all_labeled_witness :
    ((dbscanFitQ [[0]] 5 0 true).getD 0 none).isSome = true :=
  fit_minpts_zero_all_labeled [[0]] 5 true 0 (by simp)

/-- C10: `fit` terminates on every input: with the fuel budget `fitFuel`,
which bounds the number of frontier iterations via the lexicographic
measure (unvisited points, frontier length), the whole fit run completes
(`isSome`) for every matrix and parameter choice. -/
theorem fit_terminates (pts : List (List ℚ)) (eps : ℚ) (minPts : Nat)
    (borders : Bool) :
    (dbscanFitW (regionQueryQ pts eps) pts.length minPts borders).isSome = true :=
  dbscanFitW_isSome _ _ _ _ (regionQueryQ_bounded pts eps)

lemma fitRows_labels_stable (q : Nat → List Nat) (m fuel : Nat)
    (rows : List Nat) (c : Nat) (st st' : DbState)
    (h : fitRows q m false fuel rows c st = some st')
    (hlen : st.visited.length = st.clusters.length)
    (hinv : ∀ j, (st.clusters.getD j none).isSome = true →
      st.visited.getD j false = true) :
    (∀ j, (st'.clusters.getD j none).isSome = true →
      st'.visited.getD j false = true) ∧
    (∀ i co, st.clusters.getD i none = some co →
      st'.clusters.getD i none = some co) := by
  refine fitRows_rec q m false fuel
    (fun _ _ st st' =>
      st.visited.length = st.clusters.length →
      (∀ j, (st.clusters.getD j none).isSome = true →
        st.visited.getD j false = true) →
      ((∀ j, (st'.clusters.getD j none).isSome = true →
        st'.visited.getD j false = true) ∧
       (∀ i co, st.clusters.getD i none = some co →
        st'.clusters.getD i none = some co)))
    ?_ ?_ ?_ ?_ rows c st st' h hlen hinv
  · intro _ _ hl hi
    exact ⟨hi, fun _ _ hco => hco⟩
  · intro r rows c st st' hv ihp hl hi
    exact ihp hl hi
  · intro r rows c st stm st' hv hc hex ihp hl hi
    have hrunlab : ¬ (st.clusters.getD r none).isSome = true := by
      intro hlab
      rw [hi r hlab] at hv
      cases hv
    have hSlen : (seedWrite c r (markVisited r st)).visited.length =
        (seedWrite c r (markVisited r st)).clusters.length := by
      rw [seedState_visited, seedState_clusters]
      simp [hl]
    have hSinv : ∀ j, ((seedWrite c r (markVisited r st)).clusters.getD j none).isSome =
        true → (seedWrite c r (markVisited r st)).visited.getD j false = true := by
      intro j hj
      rw [seedState_clusters] at hj
      rw [seedState_visited]
      by_cases hrl : r < st.clusters.length
      · by_cases hrj : r = j
        · subst hrj
          exact getD_set_self _ _ _ _ (by rw [hl]; exact hrl)
        · rw [getD_set_ne _ _ _ hrj] at hj
          exact getD_set_true_mono _ _ _ (hi j hj)
      · rw [List.set_eq_of_length_le (le_of_not_lt hrl)] at hj
        exact getD_set_true_mono _ _ _ (hi j hj)
    have hmid := expand_labels_stable q m c fuel _ _ _ hex hSlen hSinv
    have he := expand_lengths _ _ _ _ _ _ _ _ hex
    have hnext := ihp (by rw [he.1, he.2, hSlen]) hmid.1
    refine ⟨hnext.1, ?_⟩
    intro i co hco
    have hir : i ≠ r := by
      intro hh
      subst hh
      exact hrunlab (by rw [hco]; rfl)
    refine hnext.2 i co (hmid.2 i co ?_)
    rw [seedState_clusters, getD_set_ne _ _ _ (fun hh => hir hh.symm)]
    exact hco
  · intro r rows c st st' hv hc ihp hl hi
    have hnext := ihp (by simp [markVisited, hl]) ?_
    · exact ⟨hnext.1, fun i co hco => hnext.2 i co hco⟩
    · intro j hj
      show (st.visited.set r true).getD j false = true
      exact getD_set_true_mono _ _ _ (hi j hj)

/-- C5: during a single `fit` run labels are never reset to `None` — through
both the frontier loop (`expand`) and the row loop (`fitRows`), in either
border mode, a `Some` label stays `Some`; every label change performed while
growing cluster `c` writes exactly `Some c` (so a point's label can change
value only by being popped during a different cluster's expansion); and with
`include_borders` disabled an assigned label is never changed at all. -/
theorem fit_labels_never_reset :
    (∀ (q : Nat → List Nat) (m : Nat) (b : Bool) (c fuel : Nat) (fr : List Nat)
      (st st' : DbState), expand q m b c fuel fr st = some st' →
      ∀ i, (st.clusters.getD i none).isSome = true →
        (st'.clusters.getD i none).isSome = true) ∧
    (∀ (q : Nat → List Nat) (m : Nat) (b : Bool) (fuel : Nat) (rows : List Nat)
      (c : Nat) (st st' : DbState), fitRows q m b fuel rows c st = some st' →
      ∀ i, (st.clusters.getD i none).isSome = true →
        (st'.clusters.getD i none).isSome = true) ∧
    (∀ (q : Nat → List Nat) (m : Nat) (b : Bool) (c fuel : Nat) (fr : List Nat)
      (st st' : DbState), expand q m b c fuel fr st = some st' →
      ∀ i, st'.clusters.getD i none ≠ st.clusters.getD i none →
        st'.clusters.getD i none = some c) ∧
    (∀ (q : Nat → List Nat) (m c fuel : Nat) (fr : List Nat) (st st' : DbState),
      expand q m false c fuel fr st = some st' →
      st.visited.length = st.clusters.length →
      (∀ j, (st.clusters.getD j none).isSome = true →
        st.visited.getD j false = true) →
      ∀ i co, st.clusters.getD i none = some co →
        st'.clusters.getD i none = some co) ∧
    (∀ (q : Nat → List Nat) (m fuel : Nat) (rows : List Nat) (c : Nat)
      (st st' : DbState), fitRows q m false fuel rows c st = some st' →
      st.visited.length = st.clusters.length →
      (∀ j, (st.clusters.getD j none).isSome = true →
        st.visited.getD j false = true) →
      ∀ i co, st.clusters.getD i none = some co →
        st'.clusters.getD i none = some co) := by
  refine ⟨?_, ?_, ?_, ?_, ?_⟩
  · intro q m b c fuel fr st st' h
    exact expand_some_mono q m b c fuel fr st st' h
  · intro q m b fuel rows c st st' h
    exact fitRows_some_mono q m b fuel rows c st st' h
  · intro q m b c fuel fr st st' h
    exact expand_label_write q m b c fuel fr st st' h
  · intro q m c fuel fr st st' h hlen hinv
    exact (expand_labels_stable q m c fuel fr st st' h hlen hinv).2
  · intro q m fuel rows c st st' h hlen hinv
    exact (fitRows_labels_stable q m fuel rows c st st' h hlen hinv).2

/-- Witness for `fit_labels_never_reset` on concrete one- and two-point
runs of `expand` and `fitRows`. -/
theorem fit_labels_never_reset_witness :
    ((⟨[true], [some 0]⟩ : DbState).clusters.getD 0 none).isSome = true ∧
    ((⟨[true], [some 0]⟩ : DbState).clusters.getD 0 none).isSome = true ∧
    (⟨[true], [some 0]⟩ : DbState).clusters.getD 0 none = some 0 ∧
    (⟨[true, true], [some 5, some 7]⟩ : DbState).clusters.getD 0 none = some 5 ∧
    (⟨[true], [some 3]⟩ : DbState).clusters.getD 0 none = some 3 := by
  refine ⟨?_, ?_, ?_, ?_, ?_⟩
  · exact fit_labels_never_reset.1 (fun _ => [0]) 0 false 0 3 [0]
      ⟨[false], [some 5]⟩ ⟨[true], [some 0]⟩ (by decide) 0 (by decide)
  · exact fit_labels_never_reset.2.1 (fun _ => [0]) 0 true 3 [0] 0
      ⟨[false], [some 4]⟩ ⟨[true], [some 0]⟩ (by decide) 0 (by decide)
  · exact fit_labels_never_reset.2.2.1 (fun _ => [0]) 0 false 0 3 [0]
      ⟨[false], [some 5]⟩ ⟨[true], [some 0]⟩ (by decide) 0 (by decide)
  · exact fit_labels_never_reset.2.2.2.1 (fun _ => [1]) 0 7 3 [1]
      ⟨[true, false], [some 5, none]⟩ ⟨[true, true], [some 5, some 7]⟩ (by decide)
      (by decide)
      (fun j hj => by
        match j with
        | 0 => rfl
        | 1 => exact absurd hj (by decide)
        | (k+2) =>
          exact absurd hj
            (by rw [List.getD_eq_default _ _ (by simp)]; decide))
      0 5 (by decide)
  · exact fit_labels_never_reset.2.2.2.2 (fun _ => [0]) 0 2 [0] 0
      ⟨[true], [some 3]⟩ ⟨[true], [some 3]⟩ (by decide) (by decide)
      (fun j hj => by
        match j with
        | 0 => rfl
        | (k+1) =>
          exact absurd hj
            (by rw [List.getD_eq_default _ _ (by simp)]; decide))
      0 3 (by decide)

lemma expand_query_perm (q1 q2 : Nat → List Nat) (h : ∀ i, (q1 i).Perm (q2 i))
    (m : Nat) (b : Bool) (c : Nat) :
    ∀ fuel fr st, expand q1 m b c fuel fr st = expand q2 m b c fuel fr st := by
  intro fuel
  induction fuel with
  | zero =>
    intro fr st
    rfl
  | succ fuel ih =>
    intro fr st
    cases hfr : fr.getLast? with
    | none =>
      rw [expand_empty q1 m b c fuel fr st hfr, expand_empty q2 m b c fuel fr st hfr]
    | some idx =>
      cases hv : st.visited.getD idx false with
      | true =>
        rw [expand_pop_visited q1 m b c fuel fr st idx hfr hv,
          expand_pop_visited q2 m b c fuel fr st idx hfr hv]
        exact ih _ _
      | false =>
        have hlen : (q1 idx).length = (q2 idx).length := (h idx).length_eq
        by_cases hc : m ≤ (q1 idx).length
        · rw [expand_pop_core q1 m b c fuel fr st idx hfr hv hc,
            expand_pop_core q2 m b c fuel fr st idx hfr hv (hlen ▸ hc)]
          rw [sortDedup_perm_eq (List.Perm.append_left fr.dropLast (h idx))]
          exact ih _ _
        · rw [expand_pop_noncore q1 m b c fuel fr st idx hfr hv hc,
            expand_pop_noncore q2 m b c fuel fr st idx hfr hv (hlen ▸ hc)]
          exact ih _ _

lemma fitRows_query_perm (q1 q2 : Nat → List Nat) (h : ∀ i, (q1 i).Perm (q2 i))
    (m : Nat) (b : Bool) (fuel : Nat) :
    ∀ rows c st, fitRows q1 m b fuel rows c st = fitRows q2 m b fuel rows c st := by
  intro rows
  induction rows with
  | nil =>
    intro c st
    rfl
  | cons r rows ih =>
    intro c st
    have hsd : sortDedup (q1 r) = sortDedup (q2 r) := sortDedup_perm_eq (h r)
    cases hv : st.visited.getD r false with
    | true =>
      rw [fitRows_cons_visited q1 m b fuel r rows c st hv,
        fitRows_cons_visited q2 m b fuel r rows c st hv]
      exact ih _ _
    | false =>
      by_cases hc : m ≤ (sortDedup (q1 r)).length
      · rw [fitRows_cons_core q1 m b fuel r rows c st hv hc,
          fitRows_cons_core q2 m b fuel r rows c st hv (hsd ▸ hc)]
        rw [hsd, expand_query_perm q1 q2 h m b c fuel _ _]
        cases expand q2 m b c fuel (sortDedup (q2 r)) (seedWrite c r (markVisited r st)) with
        | none => rfl
        | some stm => exact ih _ _
      · rw [fitRows_cons_noncore q1 m b fuel r rows c st hv hc,
          fitRows_cons_noncore q2 m b fuel r rows c st hv (hsd ▸ hc)]
        exact ih _ _

/-- C6: `fit` is deterministic.  The only potentially non-deterministic
input is the order in which the spatial index returns each neighbourhood;
the engine normalises every neighbour list by sort-and-dedup before it can
influence control flow, so two runs whose region queries return the same
neighbour sets as lists in any order yield identical clusters vectors. -/
theorem fit_deterministic (q1 q2 : Nat → List Nat) (n minPts : Nat)
    (borders : Bool) (h : ∀ i, (q1 i).Perm (q2 i)) :
    dbscanFit q1 n minPts borders = dbscanFit q2 n minPts borders := by
  unfold dbscanFit dbscanFitW
  rw [fitRows_query_perm q1 q2 h minPts borders (fitFuel n) (List.range n) 0 _]

/-- Witness for `fit_deterministic`: two index-output orders for the same
two-point neighbourhood. -/
theorem fit_deterministic_witness :
    dbscanFit (fun _ => [0, 1]) 2 1 false = dbscanFit (fun _ => [1, 0]) 2 1 false :=
  fit_deterministic _ _ 2 1 false (fun i => by decide)

lemma getD_lt_length (l : List (Option Nat)) (i co : Nat)
    (h : l.getD i none = some co) : i < l.length := by
  by_contra hlt
  rw [List.getD_eq_default _ _ (le_of_not_lt hlt)] at h
  cases h

lemma Shielded_mono (q : Nat → List Nat) (n : Nat) (st st' : DbState) (i : Nat)
    (hv : ∀ z, st.visited.getD z false = true → st'.visited.getD z false = true)
    (h : Shielded q n st i) : Shielded q n st' i :=
  fun z hzn hz => hv z (h z hzn hz)

lemma borderWrite_true_clusters (c idx : Nat) (st : DbState) :
    (borderWrite true c idx st).clusters = st.clusters.set idx (some c) := by
  rw [borderWrite_clusters]
  simp

lemma expand_coupled (q : Nat → List Nat) (m c n : Nat)
    (hq : ∀ i x, x ∈ q i → x < n) :
    ∀ fuel fr stF stT stF',
      expand q m false c fuel fr stF = some stF' →
      stF.visited = stT.visited →
      stF.visited.length = n →
      stF.clusters.length = n →
      stT.clusters.length = n →
      (∀ x ∈ fr, x < n) →
      LabelsLe stF stT →
      (∀ i co, stF.clusters.getD i none = some co → co ≠ c →
        Shielded q n stF i ∧ i ∉ fr) →
      (∀ i, stF.clusters.getD i none = some c →
        ∀ z ∈ q i, z ∈ fr ∨ stF.visited.getD z false = true) →
      (∀ j, (stF.clusters.getD j none).isSome = true →
        stF.visited.getD j false = true) →
      ∃ stT', expand q m true c fuel fr stT = some stT' ∧
        stF'.visited = stT'.visited ∧
        stF'.visited.length = n ∧
        stF'.clusters.length = n ∧
        stT'.clusters.length = n ∧
        LabelsLe stF' stT' ∧
        (∀ i co, stF'.clusters.getD i none = some co → co ≠ c →
          Shielded q n stF' i) ∧
        (∀ i, stF'.clusters.getD i none = some c →
          ∀ z ∈ q i, stF'.visited.getD z false = true) ∧
        (∀ j, (stF'.clusters.getD j none).isSome = true →
          stF'.visited.getD j false = true) := by
  intro fuel
  induction fuel with
  | zero =>
    intro fr stF stT stF' hF
    rw [expand_zero] at hF
    cases hF
  | succ fuel ih =>
    intro fr stF stT stF' hF h1 h2 h3 h4 h5 h6 h7 h8 h9
    cases hfr : fr.getLast? with
    | none =>
      rw [expand_empty _ _ _ _ _ _ _ hfr] at hF
      cases hF
      refine ⟨stT, expand_empty _ _ _ _ _ _ _ hfr, h1, h2, h3, h4, h6, ?_, ?_, h9⟩
      · intro i co hco hnc
        exact (h7 i co hco hnc).1
      · intro i hci z hz
        rcases h8 i hci z hz with hzfr | hvz
        · rw [List.getLast?_eq_none_iff] at hfr
          subst hfr
          simp at hzfr
        · exact hvz
    | some idx =>
      have hidxfr : idx ∈ fr := mem_of_getLast? hfr
      have hidx : idx < n := h5 idx hidxfr
      have hLT2 : LabelsLe stF (borderWrite true c idx stT) := by
        intro i co hco
        rw [borderWrite_true_clusters]
        by_cases hii : idx = i
        · subst hii
          have hcoc : co = c := by
            by_contra hne
            exact (h7 idx co hco hne).2 hidxfr
          subst hcoc
          exact getD_set_self _ _ _ _ (by rw [h4]; exact hidx)
        · rw [getD_set_ne _ _ _ hii]
          exact h6 i co hco
      have hbtlen : (borderWrite true c idx stT).clusters.length = n := by
        rw [borderWrite_true_clusters]
        simp [h4]
      cases hv : stF.visited.getD idx false with
      | true =>
        rw [expand_pop_visited q m false c fuel fr stF idx hfr hv,
          borderWrite_false] at hF
        have hvT : stT.visited.getD idx false = true := by
          rw [← h1]
          exact hv
        obtain ⟨stT', hT, e1, e2, e3, e4, e5, e6, e7, e8⟩ :=
          ih fr.dropLast stF (borderWrite true c idx stT) stF' hF
            (by rw [borderWrite_visited]; exact h1) h2 h3 hbtlen
            (fun x hx => h5 x (List.dropLast_subset fr hx)) hLT2
            (fun i co hco hnc =>
              ⟨(h7 i co hco hnc).1,
               fun hmem => (h7 i co hco hnc).2 (List.dropLast_subset fr hmem)⟩)
            (fun i hci z hz => by
              rcases h8 i hci z hz with hzfr | hvz
              · rcases mem_fr_cases hfr hzfr with hzd | rfl
                · exact Or.inl hzd
                · exact Or.inr hv
              · exact Or.inr hvz)
            h9
        refine ⟨stT', ?_, e1, e2, e3, e4, e5, e6, e7, e8⟩
        rw [expand_pop_visited q m true c fuel fr stT idx hfr hvT]
        exact hT
      | false =>
        by_cases hc : m ≤ (q idx).length
        · rw [expand_pop_core q m false c fuel fr stF idx hfr hv hc] at hF
          have hvT : stT.visited.getD idx false = false := by
            rw [← h1]
            exact hv
          have hSFv : (coreWrite false c idx (markVisited idx
              (borderWrite false c idx stF))).visited = stF.visited.set idx true :=
            coreState_visited false c idx stF
          have hSFc : (coreWrite false c idx (markVisited idx
              (borderWrite false c idx stF))).clusters =
              stF.clusters.set idx (some c) :=
            coreState_clusters false c idx stF
          have hSTv : (coreWrite true c idx (markVisited idx
              (borderWrite true c idx stT))).visited = stT.visited.set idx true :=
            coreState_visited true c idx stT
          have hSTc : (coreWrite true c idx (markVisited idx
              (borderWrite true c idx stT))).clusters =
              stT.clusters.set idx (some c) :=
            coreState_clusters true c idx stT
          have hfr2b : ∀ x ∈ sortDedup (fr.dropLast ++ q idx), x < n := by
            intro x hx
            rw [mem_sortDedup] at hx
            rcases List.mem_append.mp hx with hx1 | hx2
            · exact h5 x (List.dropLast_subset fr hx1)
            · exact hq idx x hx2
          obtain ⟨stT', hT, e1, e2, e3, e4, e5, e6, e7, e8⟩ :=
            ih (sortDedup (fr.dropLast ++ q idx))
              (coreWrite false c idx (markVisited idx (borderWrite false c idx stF)))
              (coreWrite true c idx (markVisited idx (borderWrite true c idx stT)))
              stF' hF
              (by rw [hSFv, hSTv, h1])
              (by rw [hSFv]; simp [h2])
              (by rw [hSFc]; simp [h3])
              (by rw [hSTc]; simp [h4])
              hfr2b
              (by
                intro i co hco
                rw [hSFc] at hco
                rw [hSTc]
                by_cases hii : idx = i
                · subst hii
                  rw [getD_set_self _ _ _ _ (by rw [h3]; exact hidx)] at hco
                  rw [getD_set_self _ _ _ _ (by rw [h4]; exact hidx)]
                  exact hco
                · rw [getD_set_ne _ _ _ hii] at hco
                  rw [getD_set_ne _ _ _ hii]
                  exact h6 i co hco)
              (by
                intro i co hco hnc
                rw [hSFc] at hco
                have hii : idx ≠ i := by
                  intro hh
                  subst hh
                  rw [getD_set_self _ _ _ _ (by rw [h3]; exact hidx)] at hco
                  cases hco
                  exact hnc rfl
                rw [getD_set_ne _ _ _ hii] at hco
                have hin : i < n := by
                  have := getD_lt_length _ _ _ hco
                  rwa [h3] at this
                have hsh := (h7 i co hco hnc).1
                constructor
                · refine Shielded_mono q n stF _ i ?_ hsh
                  intro z hz
                  rw [hSFv]
                  exact getD_set_true_mono _ _ _ hz
                · intro hmem
                  rw [mem_sortDedup] at hmem
                  rcases List.mem_append.mp hmem with hm1 | hm2
                  · exact (h7 i co hco hnc).2 (List.dropLast_subset fr hm1)
                  · have := hsh idx hidx hm2
                    rw [hv] at this
                    cases this)
              (by
                intro i hci z hz
                rw [hSFc] at hci
                rw [hSFv]
                by_cases hii : idx = i
                · subst hii
                  left
                  rw [mem_sortDedup]
                  exact List.mem_append.mpr (Or.inr hz)
                · rw [getD_set_ne _ _ _ hii] at hci
                  rcases h8 i hci z hz with hzfr | hvz
                  · rcases mem_fr_cases hfr hzfr with hzd | rfl
                    · left
                      rw [mem_sortDedup]
                      exact List.mem_append.mpr (Or.inl hzd)
                    · right
                      exact getD_set_self _ _ _ _ (by rw [h2]; exact hidx)
                  · right
                    exact getD_set_true_mono _ _ _ hvz)
              (by
                intro j hj
                rw [hSFc] at hj
                rw [hSFv]
                by_cases hjj : idx = j
                · subst hjj
                  exact getD_set_self _ _ _ _ (by rw [h2]; exact hidx)
                · rw [getD_set_ne _ _ _ hjj] at hj
                  exact getD_set_true_mono _ _ _ (h9 j hj))
          refine ⟨stT', ?_, e1, e2, e3, e4, e5, e6, e7, e8⟩
          rw [expand_pop_core q m true c fuel fr stT idx hfr hvT hc]
          exact hT
        · rw [expand_pop_noncore q m false c fuel fr stF idx hfr hv hc,
            borderWrite_false] at hF
          have hvT : stT.visited.getD idx false = false := by
            rw [← h1]
            exact hv
          have hNTv : (markVisited idx (borderWrite true c idx stT)).visited =
              stT.visited.set idx true :=
            nonCoreState_visited true c idx stT
          have hNTc : (markVisited idx (borderWrite true c idx stT)).clusters =
              stT.clusters.set idx (some c) := by
            rw [nonCoreState_clusters, borderWrite_true_clusters]
          have hidxunlab : ∀ co, stF.clusters.getD idx none = some co → False := by
            intro co hco
            have := h9 idx (by rw [hco]; rfl)
            rw [hv] at this
            cases this
          obtain ⟨stT', hT, e1, e2, e3, e4, e5, e6, e7, e8⟩ :=
            ih fr.dropLast (markVisited idx stF)
              (markVisited idx (borderWrite true c idx stT)) stF' hF
              (by
                show stF.visited.set idx true = _
                rw [hNTv, h1])
              (by show (stF.visited.set idx true).length = n; simp [h2])
              (by show stF.clusters.length = n; exact h3)
              (by rw [hNTc]; simp [h4])
              (fun x hx => h5 x (List.dropLast_subset fr hx))
              (by
                intro i co hco
                rw [markVisited_clusters] at hco
                rw [hNTc]
                by_cases hii : idx = i
                · subst hii
                  cases hidxunlab co hco
                · rw [getD_set_ne _ _ _ hii]
                  exact h6 i co hco)
              (by
                intro i co hco hnc
                rw [markVisited_clusters] at hco
                constructor
                · refine Shielded_mono q n stF _ i ?_ (h7 i co hco hnc).1
                  intro z hz
                  show (stF.visited.set idx true).getD z false = true
                  exact getD_set_true_mono _ _ _ hz
                · intro hmem
                  exact (h7 i co hco hnc).2 (List.dropLast_subset fr hmem))
              (by
                intro i hci z hz
                rw [markVisited_clusters] at hci
                show _ ∨ (stF.visited.set idx true).getD z false = true
                rcases h8 i hci z hz with hzfr | hvz
                · rcases mem_fr_cases hfr hzfr with hzd | rfl
                  · exact Or.inl hzd
                  · right
                    exact getD_set_self _ _ _ _ (by rw [h2]; exact hidx)
                · right
                  exact getD_set_true_mono _ _ _ hvz)
              (by
                intro j hj
                rw [markVisited_clusters] at hj
                show (stF.visited.set idx true).getD j false = true
                exact getD_set_true_mono _ _ _ (h9 j hj))
          exact ⟨stT',
            by rw [expand_pop_noncore q m true c fuel fr stT idx hfr hvT hc]; exact hT,
            e1, e2, e3, e4, e5, e6, e7, e8⟩

lemma fitRows_coupled (q : Nat → List Nat) (m n fuel : Nat)
    (hq : ∀ i x, x ∈ q i → x < n)
    (hsym : ∀ i j, i < n → j < n → (i ∈ q j ↔ j ∈ q i)) :
    ∀ rows c stF stT stF',
      fitRows q m false fuel rows c stF = some stF' →
      stF.visited = stT.visited →
      stF.visited.length = n →
      stF.clusters.length = n →
      stT.clusters.length = n →
      (∀ r ∈ rows, r < n) →
      LabelsLe stF stT →
      (∀ i co, stF.clusters.getD i none = some co → Shielded q n stF i) →
      (∀ i co, stF.clusters.getD i none = some co → co < c) →
      (∀ j, (stF.clusters.getD j none).isSome = true →
        stF.visited.getD j false = true) →
      ∃ stT', fitRows q m true fuel rows c stT = some stT' ∧ LabelsLe stF' stT' := by
  intro rows
  induction rows with
  | nil =>
    intro c stF stT stF' hF h1 h2 h3 h4 h5 h6 h7 h8 h9
    rw [fitRows_nil] at hF
    cases hF
    exact ⟨stT, fitRows_nil _ _ _ _ _ _, h6⟩
  | cons r rows ih =>
    intro c stF stT stF' hF h1 h2 h3 h4 h5 h6 h7 h8 h9
    have hrn : r < n := h5 r (List.mem_cons_self r rows)
    cases hv : stF.visited.getD r false with
    | true =>
      rw [fitRows_cons_visited q m false fuel r rows c stF hv] at hF
      have hvT : stT.visited.getD r false = true := by
        rw [← h1]
        exact hv
      obtain ⟨stT', hT, hL⟩ := ih c stF stT stF' hF h1 h2 h3 h4
        (fun x hx => h5 x (List.mem_cons_of_mem r hx)) h6 h7 h8 h9
      exact ⟨stT',
        by rw [fitRows_cons_visited q m true fuel r rows c stT hvT]; exact hT, hL⟩
    | false =>
      have hvT : stT.visited.getD r false = false := by
        rw [← h1]
        exact hv
      by_cases hc : m ≤ (sortDedup (q r)).length
      · rw [fitRows_cons_core q m false fuel r rows c stF hv hc] at hF
        cases hex : expand q m false c fuel (sortDedup (q r))
            (seedWrite c r (markVisited r stF)) with
        | none =>
          rw [hex] at hF
          simp at hF
        | some stm =>
          rw [hex] at hF
          have hrunlab : ∀ co, stF.clusters.getD r none = some co → False := by
            intro co hco
            have := h9 r (by rw [hco]; rfl)
            rw [hv] at this
            cases this
          obtain ⟨stmT, hexT, e1, e2, e3, e4, e5, e6, e7, e8⟩ :=
            expand_coupled q m c n hq fuel (sortDedup (q r))
              (seedWrite c r (markVisited r stF))
              (seedWrite c r (markVisited r stT)) stm hex
              (by rw [seedState_visited, seedState_visited, h1])
              (by rw [seedState_visited]; simp [h2])
              (by rw [seedState_clusters]; simp [h3])
              (by rw [seedState_clusters]; simp [h4])
              (fun x hx => hq r x ((mem_sortDedup x _).mp hx))
              (by
                intro i co hco
                rw [seedState_clusters] at hco
                rw [seedState_clusters]
                by_cases hri : r = i
                · subst hri
                  rw [getD_set_self _ _ _ _ (by rw [h3]; exact hrn)] at hco
                  rw [getD_set_self _ _ _ _ (by rw [h4]; exact hrn)]
                  exact hco
                · rw [getD_set_ne _ _ _ hri] at hco
                  rw [getD_set_ne _ _ _ hri]
                  exact h6 i co hco)
              (by
                intro i co hco hnc
                rw [seedState_clusters] at hco
                have hri : r ≠ i := by
                  intro hh
                  subst hh
                  rw [getD_set_self _ _ _ _ (by rw [h3]; exact hrn)] at hco
                  cases hco
                  exact hnc rfl
                rw [getD_set_ne _ _ _ hri] at hco
                have hin : i < n := by
                  have := getD_lt_length _ _ _ hco
                  rwa [h3] at this
                constructor
                · refine Shielded_mono q n stF _ i ?_ (h7 i co hco)
                  intro z hz
                  rw [seedState_visited]
                  exact getD_set_true_mono _ _ _ hz
                · intro hmem
                  have hiq : i ∈ q r := (mem_sortDedup i _).mp hmem
                  have hriq : r ∈ q i := (hsym i r hin hrn).mp hiq
                  have := h7 i co hco r hrn hiq
                  rw [hv] at this
                  cases this)
              (by
                intro i hci z hz
                rw [seedState_clusters] at hci
                by_cases hri : r = i
                · subst hri
                  left
                  rw [mem_sortDedup]
                  exact hz
                · rw [getD_set_ne _ _ _ hri] at hci
                  have := h8 i c hci
                  omega)
              (by
                intro j hj
                rw [seedState_clusters] at hj
                rw [seedState_visited]
                by_cases hrj : r = j
                · subst hrj
                  exact getD_set_self _ _ _ _ (by rw [h2]; exact hrn)
                · rw [getD_set_ne _ _ _ hrj] at hj
                  exact getD_set_true_mono _ _ _ (h9 j hj))
          obtain ⟨stT', hTrun, hL⟩ := ih (c + 1) stm stmT stF' hF e1 e2 e3 e4
            (fun x hx => h5 x (List.mem_cons_of_mem r hx)) e5
            (by
              intro i co hco
              by_cases hcoc : co = c
              · subst hcoc
                intro z hzn hzq
                have hin : i < n := by
                  have := getD_lt_length _ _ _ hco
                  rwa [e3] at this
                have hziq : z ∈ q i := (hsym i z hin hzn).mp hzq
                exact e7 i hco z hziq
              · exact e6 i co hco hcoc)
            (by
              intro i co hco
              by_cases hch : stm.clusters.getD i none =
                  (seedWrite c r (markVisited r stF)).clusters.getD i none
              · rw [hch, seedState_clusters] at hco
                by_cases hri : r = i
                · subst hri
                  rw [getD_set_self _ _ _ _ (by rw [h3]; exact hrn)] at hco
                  cases hco
                  omega
                · rw [getD_set_ne _ _ _ hri] at hco
                  have := h8 i co hco
                  omega
              · have := expand_label_write _ _ _ _ _ _ _ _ hex i hch
                rw [hco] at this
                cases this
                omega)
            e8
          refine ⟨stT', ?_, hL⟩
          rw [fitRows_cons_core q m true fuel r rows c stT hvT hc, hexT]
          exact hTrun
      · rw [fitRows_cons_noncore q m false fuel r rows c stF hv hc] at hF
        obtain ⟨stT', hT, hL⟩ := ih c (markVisited r stF) (markVisited r stT) stF' hF
          (by
            show stF.visited.set r true = stT.visited.set r true
            rw [h1])
          (by show (stF.visited.set r true).length = n; simp [h2])
          (by rw [markVisited_clusters]; exact h3)
          (by rw [markVisited_clusters]; exact h4)
          (fun x hx => h5 x (List.mem_cons_of_mem r hx))
          (by
            intro i co hco
            rw [markVisited_clusters] at hco
            rw [markVisited_clusters]
            exact h6 i co hco)
          (by
            intro i co hco
            rw [markVisited_clusters] at hco
            refine Shielded_mono q n stF _ i ?_ (h7 i co hco)
            intro z hz
            show (stF.visited.set r true).getD z false = true
            exact getD_set_true_mono _ _ _ hz)
          (by
            intro i co hco
            rw [markVisited_clusters] at hco
            exact h8 i co hco)
          (by
            intro j hj
            rw [markVisited_clusters] at hj
            show (stF.visited.set r true).getD j false = true
            exact getD_set_true_mono _ _ _ (h9 j hj))
        exact ⟨stT',
          by rw [fitRows_cons_noncore q m true fuel r rows c stT hvT hc]; exact hT, hL⟩

lemma sqDist_comm (a : List ℚ) : ∀ (b : List ℚ), sqDist a b = sqDist b a := by
  induction a with
  | nil =>
    intro b
    cases b <;> rfl
  | cons x xs ih =>
    intro b
    cases b with
    | nil => rfl
    | cons y ys =>
      show (x - y) ^ 2 + sqDist xs ys = (y - x) ^ 2 + sqDist ys xs
      rw [ih ys]
      ring

lemma regionQueryQ_symm (pts : List (List ℚ)) (eps : ℚ) :
    ∀ i j, i < pts.length → j < pts.length →
      (i ∈ regionQueryQ pts eps j ↔ j ∈ regionQueryQ pts eps i) := by
  intro i j hi hj
  unfold regionQueryQ regionQueryRow
  simp only [List.mem_filter, List.mem_range, decide_eq_true_eq]
  constructor
  · rintro ⟨-, hd⟩
    exact ⟨hj, by rw [sqDist_comm]; exact hd⟩
  · rintro ⟨-, hd⟩
    exact ⟨hi, by rw [sqDist_comm]; exact hd⟩

lemma replicate_getD_none (n i : Nat) :
    (List.replicate n (none : Option Nat)).getD i none = none := by
  rw [List.getD_eq_getElem?_getD, List.getElem?_replicate]
  by_cases h : i < n <;> simp [h]

/-- C3: for the same matrix, `eps` and `min_points`, every point labeled
`Some c` by the `include_borders = false` run is labeled `Some c` (same
cluster id) by the `include_borders = true` run as well. -/
theorem fit_border_flag_extends (pts : List (List ℚ)) (eps : ℚ) (minPts : Nat)
    (i c : Nat) (h : (dbscanFitQ pts eps minPts false).getD i none = some c) :
    (dbscanFitQ pts eps minPts true).getD i none = some c := by
  have hqb := regionQueryQ_bounded pts eps
  have hrunF := fitRows_fuel_sufficient (regionQueryQ pts eps) minPts false
    pts.length hqb (List.range pts.length) 0
    ⟨List.replicate pts.length false, List.replicate pts.length none⟩
    (fun r hr => List.mem_range.mp hr) (by simp)
  obtain ⟨stF', hF⟩ := Option.isSome_iff_exists.mp hrunF
  obtain ⟨stT', hT, hL⟩ := fitRows_coupled (regionQueryQ pts eps) minPts
    pts.length (fitFuel pts.length) hqb (regionQueryQ_symm pts eps)
    (List.range pts.length) 0
    ⟨List.replicate pts.length false, List.replicate pts.length none⟩
    ⟨List.replicate pts.length false, List.replicate pts.length none⟩
    stF' hF rfl (by simp) (by simp) (by simp)
    (fun r hr => List.mem_range.mp hr)
    (by
      intro i co hco
      rw [replicate_getD_none] at hco
      cases hco)
    (by
      intro i co hco
      rw [replicate_getD_none] at hco
      cases hco)
    (by
      intro i co hco
      rw [replicate_getD_none] at hco
      cases hco)
    (by
      intro j hj
      rw [replicate_getD_none] at hj
      cases hj)
  have hFc : dbscanFitQ pts eps minPts false = stF'.clusters := by
    unfold dbscanFitQ dbscanFit dbscanFitW
    rw [hF]
    rfl
  have hTc : dbscanFitQ pts eps minPts true = stT'.clusters := by
    unfold dbscanFitQ dbscanFit dbscanFitW
    rw [hT]
    rfl
  rw [hFc] at h
  rw [hTc]
  exact hL i c h

/-- Witness for `fit_border_flag_extends` on a one-point matrix. -/
theorem fit_border_flag_extends_witness :
    (dbscanFitQ [[0]] 1 1 true).getD 0 none = some 0 := by
  refine fit_border_flag_extends [[0]] 1 1 0 0 ?_
  unfold dbscanFitQ
  rw [show List.length [[(0:ℚ)]] = 1 from rfl,
    (funext one_point_query_pos : regionQueryQ [[(0:ℚ)]] 1 = fun _ => [0])]
  decide

end DbscanModel
